import Mathlib

/-!
Verification of the reactive dependency-tracking core (observer, watcher,
dependency, array interception, deep traversal) of this Vue-style repository.

The JavaScript code is embedded shallowly: machine state (the single tracked
watcher, the dependency subscriber lists, the active-computation target stack)
is passed explicitly, user-supplied getters and callbacks are characterised by
the dependencies they touch and the result they produce, and observable side
effects (expression invocation, error-sink reporting, callback invocation,
scheduler queueing) are recorded in an event log.
-/

namespace VueSpec

/-- JavaScript numbers, reduced to what the semantics of the code under
verification distinguishes: NaN (not strictly equal to itself) and ordinary
numbers. -/
inductive JsNum
  | nan
  | int (z : Int)
deriving DecidableEq, Repr

/-- JavaScript values: primitives plus references to objects and arrays
(identified by a heap address). -/
inductive Value
  | undef
  | null
  | boolV (b : Bool)
  | num (n : JsNum)
  | str (s : String)
  | obj (a : Nat)
  | arr (a : Nat)
deriving DecidableEq, Repr

/-- A value that is not strictly equal to itself: exactly NaN. -/
def valueIsNaN : Value → Bool
  | .num .nan => true
  | _ => false

/-- JavaScript strict equality on values. NaN is not strictly equal to
anything, including itself; references are equal when they denote the same
heap address. -/
def strictEq (a b : Value) : Bool :=
  if valueIsNaN a || valueIsNaN b then false else decide (a = b)

/-- isObject from the utilities: a value is an object when it is not null and
typeof gives object, which holds exactly for object and array references. -/
def isObject : Value → Bool
  | .obj _ => true
  | .arr _ => true
  | _ => false

/-! ### Dependency subscriber lists

The Dep class itself (observer/dep.js) is not part of the sources under
verification; only its callers are.  Its operations are modelled from the
spec: a Dependency has a unique id and an ordered subscriber list, addSub
appends a subscriber, removeSub removes it, depend records the dependency on
the active computation.  Dependencies are identified here by their id, and
the global map from dependency id to its subscriber list is an association
list. -/

/-- Map from dependency id to its ordered list of subscriber watcher ids. -/
abbrev DepMap := List (Nat × List Nat)

/-- Subscriber list of the dependency with the given id (empty when the
dependency has never been touched). -/
def subsOf : DepMap → Nat → List Nat
  | [], _ => []
  | p :: rest, d => if p.1 = d then p.2 else subsOf rest d

/-- Replace (or create) the subscriber list of one dependency. -/
def setSubs (dm : DepMap) (d : Nat) (l : List Nat) : DepMap :=
  match dm with
  | [] => [(d, l)]
  | p :: rest => if p.1 = d then (d, l) :: rest else p :: setSubs rest d l

/-- Modelled from the spec: Dep.addSub pushes the subscriber onto the
dependency's subscriber list (insertion order). -/
def Dep.addSub (dm : DepMap) (d : Nat) (wid : Nat) : DepMap :=
  setSubs dm d (subsOf dm d ++ [wid])

/-- Modelled from the spec: Dep.removeSub removes the subscriber from the
dependency's subscriber list (the util remove helper splices out the first
occurrence). -/
def Dep.removeSub (dm : DepMap) (d : Nat) (wid : Nat) : DepMap :=
  setSubs dm d ((subsOf dm d).erase wid)

/-! ### The watcher -/

/-- The per-watcher fields of the Watcher class (src/unnamed/part_001).
Dependencies are carried by id; depIds and newDepIds model the identity sets
paired with deps and newDeps. -/
structure Watcher where
  id : Nat
  deep : Bool
  user : Bool
  isLazy : Bool
  sync : Bool
  active : Bool
  dirty : Bool
  deps : List Nat
  depIds : List Nat
  newDeps : List Nat
  newDepIds : List Nat
  value : Value
deriving DecidableEq, Repr

/-- Global reactive-system state for one tracked watcher: the watcher record,
the dependency subscriber map, the active-computation target stack
(Dep.target is the head), and the owning instance's watcher-list
bookkeeping used by teardown. -/
structure RState where
  w : Watcher
  dm : DepMap
  targetStack : List Nat
  vmWatchers : List Nat
  vmDestroying : Bool
deriving DecidableEq, Repr

/-- Observable events produced while running watcher operations: the wrapped
expression being invoked, an exception being routed to the error sink
(handleError), the change callback firing with (newValue, oldValue), and the
watcher being handed to the scheduler queue. -/
inductive Event
  | getterInvoked
  | errorHandled
  | cbCall (newVal oldVal : Value)
  | queued (wid : Nat)
deriving DecidableEq, Repr

/-- Outcome of invoking user code: a value, or a thrown exception. -/
inductive GResult
  | ok (v : Value)
  | thrown
deriving DecidableEq, Repr

/-- One evaluation of a watcher's wrapped expression, characterised by the
dependency ids it touches (each touch runs dep.depend, i.e. addDep on the
active watcher), in order, and by its outcome.  When the outcome is thrown,
touched lists the dependencies read before the exception. -/
structure GetterSpec where
  touched : List Nat
  result : GResult
deriving DecidableEq, Repr

/-- The value variable of Watcher.get after invoking the expression: the
result, or undefined when the expression threw (the assignment never
happened). -/
def gotValue (g : GetterSpec) : Value :=
  match g.result with
  | .ok v => v
  | .thrown => Value.undef

/-- All dependency ids recorded via addDep during one run of Watcher.get:
the ids the expression touches, followed by the ids the deep traversal of
the resulting value touches when deep mode is set. -/
def recordedDeps (g : GetterSpec) (deepTouch : Value → List Nat) (w : Watcher) : List Nat :=
  g.touched ++ (if w.deep then deepTouch (gotValue g) else [])

/-- Watcher.addDep (src/unnamed/part_001 lines 152-161): record a dependency
edge in the new-generation buffers, subscribing only if the previous
generation did not already hold it. -/
def Watcher.addDep (s : RState) (depId : Nat) : RState :=
  if depId ∈ s.w.newDepIds then s
  else
    let w1 := { s.w with newDepIds := s.w.newDepIds ++ [depId],
                         newDeps := s.w.newDeps ++ [depId] }
    if depId ∈ s.w.depIds then { s with w := w1 }
    else { s with w := w1, dm := Dep.addSub s.dm depId s.w.id }

/-- The removal pass of Watcher.cleanupDeps: walk the previous generation
from the end, removing this watcher from every dependency not present in the
newly collected id set. -/
def cleanupStale (dm : DepMap) (wid : Nat) (oldDeps newIds : List Nat) : DepMap :=
  oldDeps.reverse.foldl
    (fun m d => if d ∈ newIds then m else Dep.removeSub m d wid) dm

/-- Watcher.cleanupDeps (src/unnamed/part_001 lines 166-182): prune stale
subscriptions, promote the new generation to current, and clear the working
buffers. -/
def Watcher.cleanupDeps (s : RState) : RState :=
  let dm1 := cleanupStale s.dm s.w.id s.w.deps s.w.newDepIds
  { s with dm := dm1,
           w := { s.w with depIds := s.w.newDepIds, newDepIds := [],
                           deps := s.w.newDeps, newDeps := [] } }

/-- Watcher.get (src/unnamed/part_001 lines 120-147): push self as the active
computation, invoke the expression (touching dependencies), contain a thrown
exception for user watchers (routing it to handleError) or rethrow it for
internal ones, and in the finally block deep-traverse the value when deep is
set, pop the target and reconcile the dependency sets.  The deep traversal's
reactive reads are characterised by deepTouch applied to the value traversed
(the value stays undefined when the expression threw). -/
def Watcher.get (g : GetterSpec) (deepTouch : Value → List Nat) (s : RState) :
    RState × List Event × GResult :=
  let s1 := { s with targetStack := s.w.id :: s.targetStack }
  let s2 := g.touched.foldl Watcher.addDep s1
  let evs := match g.result with
    | .ok _ => [Event.getterInvoked]
    | .thrown =>
      if s2.w.user then [Event.getterInvoked, Event.errorHandled]
      else [Event.getterInvoked]
  let rethrown := match g.result with
    | .ok _ => false
    | .thrown => !s2.w.user
  let s3 := if s2.w.deep then (deepTouch (gotValue g)).foldl Watcher.addDep s2 else s2
  let s4 := { s3 with targetStack := s3.targetStack.tail }
  let s5 := Watcher.cleanupDeps s4
  (s5, evs, if rethrown then GResult.thrown else GResult.ok (gotValue g))

/-- Watcher.run (src/unnamed/part_001 lines 203-228): when active,
re-evaluate, and when the value changed by strict equality, or is an
object/array, or deep mode is set, replace the cached value and invoke the
callback with (newValue, oldValue); a user callback's exception is contained
via handleError, a non-user callback's propagates.  The Boolean result
records whether run itself threw. -/
def Watcher.run (g : GetterSpec) (deepTouch : Value → List Nat) (cbThrows : Bool)
    (s : RState) : RState × List Event × Bool :=
  if s.w.active then
    let r := Watcher.get g deepTouch s
    match r.2.2 with
    | .thrown => (r.1, r.2.1, true)
    | .ok value =>
      if !(strictEq value r.1.w.value) || isObject value || r.1.w.deep then
        let oldValue := r.1.w.value
        let s2 := { r.1 with w := { r.1.w with value := value } }
        if s2.w.user then
          if cbThrows then
            (s2, r.2.1 ++ [Event.cbCall value oldValue, Event.errorHandled], false)
          else
            (s2, r.2.1 ++ [Event.cbCall value oldValue], false)
        else
          (s2, r.2.1 ++ [Event.cbCall value oldValue], cbThrows)
      else (r.1, r.2.1, false)
  else (s, [], false)

/-- Watcher.update (src/unnamed/part_001 lines 188-197): lazy watchers are
merely marked dirty, sync watchers run immediately, all others are handed to
the scheduler queue (queueWatcher lives in the scheduler module, which is not
under the verified sources; handing over is modelled from the spec as the
queued event). -/
def Watcher.update (g : GetterSpec) (deepTouch : Value → List Nat) (cbThrows : Bool)
    (s : RState) : RState × List Event × Bool :=
  if s.w.isLazy then ({ s with w := { s.w with dirty := true } }, [], false)
  else if s.w.sync then Watcher.run g deepTouch cbThrows s
  else (s, [Event.queued s.w.id], false)

/-- Watcher.evaluate (src/unnamed/part_001 lines 234-237): force get and clear
the dirty flag (only reached for lazy watchers). -/
def Watcher.evaluate (g : GetterSpec) (deepTouch : Value → List Nat) (s : RState) :
    RState × List Event × Bool :=
  let r := Watcher.get g deepTouch s
  match r.2.2 with
  | .thrown => (r.1, r.2.1, true)
  | .ok v => ({ r.1 with w := { r.1.w with value := v, dirty := false } }, r.2.1, false)

/-- Modelled from the spec: Dep.depend adds this dependency to the active
computation (Dep.target, the head of the target stack).  In this
single-watcher state the effect is visible only when the active target is the
modelled watcher. -/
def Dep.depend (s : RState) (depId : Nat) : RState :=
  match s.targetStack.head? with
  | some t => if t = s.w.id then Watcher.addDep s depId else s
  | none => s

/-- Watcher.depend (src/unnamed/part_001 lines 242-247): call depend on every
currently collected dependency, walking from the end. -/
def Watcher.depend (s : RState) : RState :=
  s.w.deps.reverse.foldl Dep.depend s

/-- Watcher.teardown (src/unnamed/part_001 lines 252-266): when still active,
drop self from the owning instance's watcher list (unless that instance is
being destroyed), remove self from every subscribed dependency, and mark
inactive. -/
def Watcher.teardown (s : RState) : RState :=
  if s.w.active then
    let vmw := if !s.vmDestroying then s.vmWatchers.erase s.w.id else s.vmWatchers
    let dm1 := s.w.deps.reverse.foldl (fun m d => Dep.removeSub m d s.w.id) s.dm
    { s with vmWatchers := vmw, dm := dm1, w := { s.w with active := false } }
  else s

/-- Modelled from the spec: Dep.notify invokes update on a snapshot copy of
the current subscriber list.  Updates apply to the modelled watcher when its
id occurs in the snapshot; a thrown synchronous run aborts the iteration. -/
def notifySnapshot (g : GetterSpec) (deepTouch : Value → List Nat) (cbThrows : Bool) :
    List Nat → RState → List Event → RState × List Event × Bool
  | [], s, evs => (s, evs, false)
  | wid :: rest, s, evs =>
    if wid = s.w.id then
      let r := Watcher.update g deepTouch cbThrows s
      if r.2.2 then (r.1, evs ++ r.2.1, true)
      else notifySnapshot g deepTouch cbThrows rest r.1 (evs ++ r.2.1)
    else notifySnapshot g deepTouch cbThrows rest s evs

/-- Dep.notify on the dependency with the given id. -/
def Dep.notify (g : GetterSpec) (deepTouch : Value → List Nat) (cbThrows : Bool)
    (depId : Nat) (s : RState) : RState × List Event × Bool :=
  notifySnapshot g deepTouch cbThrows (subsOf s.dm depId) s []

/-! ### Watcher construction -/

/-- The options bag handed to the Watcher constructor. -/
structure WOptions where
  deep : Bool
  user : Bool
  isLazy : Bool
  sync : Bool
deriving DecidableEq, Repr

/-- The expOrFn constructor argument: a function, or a string path. -/
inductive ExpOrFn
  | fn (g : GetterSpec)
  | path (p : String)
deriving DecidableEq, Repr

/-- Modelled from the spec: parsePath (in util/lang.js, not under the verified
sources) accepts only simple dot-delimited paths; a path containing any
character other than letters, digits, dot, underscore or dollar fails to
parse. -/
def parsePathOk (p : String) : Bool :=
  p.data.all (fun c => c.isAlphanum || c == '.' || c == '_' || c == '$')

/-- The noop getter installed when parsePath fails: touches nothing, returns
undefined. -/
def noopGetter : GetterSpec := ⟨[], GResult.ok Value.undef⟩

/-- The Watcher constructor (src/unnamed/part_001 lines 45-112): record flags
from the options, take the next uid, start active with dirty equal to lazy
and empty dependency buffers, derive the getter from expOrFn (a failing path
parse installs noop), and evaluate eagerly unless lazy.  pathGetter supplies
the evaluation behaviour of a successfully parsed path getter.  The Boolean
result records whether construction threw (a rethrown non-user getter
exception). -/
def mkWatcher (uid0 : Nat) (expOrFn : ExpOrFn) (pathGetter : String → GetterSpec)
    (opts : WOptions) (deepTouch : Value → List Nat)
    (dm0 : DepMap) (ts0 : List Nat) (vmw0 : List Nat) (vmd0 : Bool) :
    RState × List Event × Bool :=
  let wid := uid0 + 1
  let getter := match expOrFn with
    | .fn g => g
    | .path p => if parsePathOk p then pathGetter p else noopGetter
  let w0 : Watcher :=
    { id := wid, deep := opts.deep, user := opts.user, isLazy := opts.isLazy,
      sync := opts.sync, active := true, dirty := opts.isLazy,
      deps := [], depIds := [], newDeps := [], newDepIds := [],
      value := Value.undef }
  let s0 : RState :=
    { w := w0, dm := dm0, targetStack := ts0,
      vmWatchers := vmw0 ++ [wid], vmDestroying := vmd0 }
  if opts.isLazy then (s0, [], false)
  else
    let r := Watcher.get getter deepTouch s0
    match r.2.2 with
    | .thrown => (r.1, r.2.1, true)
    | .ok v => ({ r.1 with w := { r.1.w with value := v } }, r.2.1, false)

/-- createComputedGetter's computedGetter (src/src/core/instance/state.js
lines 336-358): evaluate only when dirty, then let an outer active
computation depend on this watcher's dependencies, and return the cached
value.  The Boolean records a propagated evaluation exception. -/
def computedGetter (g : GetterSpec) (deepTouch : Value → List Nat) (s : RState) :
    RState × List Event × Bool × Value :=
  let r := if s.w.dirty then Watcher.evaluate g deepTouch s else (s, [], false)
  if r.2.2 then (r.1, r.2.1, true, Value.undef)
  else
    let s2 := match r.1.targetStack.head? with
      | some _ => Watcher.depend r.1
      | none => r.1
    (s2, r.2.1, false, s2.w.value)

/-! ### Basic lemmas about subscriber maps -/

theorem subsOf_setSubs (dm : DepMap) (d d' : Nat) (l : List Nat) :
    subsOf (setSubs dm d l) d' = if d = d' then l else subsOf dm d' := by
  induction dm with
  | nil =>
    by_cases h : d = d' <;> simp [setSubs, subsOf, h]
  | cons p rest ih =>
    by_cases h1 : p.1 = d
    · by_cases h2 : d = d'
      · subst h2; simp [setSubs, subsOf, h1]
      · have h3 : ¬ p.1 = d' := by rw [h1]; exact h2
        simp [setSubs, subsOf, h1, h2, h3]
    · by_cases h2 : d = d'
      · subst h2
        simp [setSubs, subsOf, h1, ih]
      · have h4 : ¬ d' = d := fun h => h2 h.symm
        by_cases h3 : p.1 = d' <;> simp [setSubs, subsOf, h1, h2, h3, h4, ih]

theorem subsOf_addSub (dm : DepMap) (d d' : Nat) (wid : Nat) :
    subsOf (Dep.addSub dm d wid) d' =
      if d = d' then subsOf dm d ++ [wid] else subsOf dm d' := by
  simp [Dep.addSub, subsOf_setSubs]

theorem subsOf_removeSub (dm : DepMap) (d d' : Nat) (wid : Nat) :
    subsOf (Dep.removeSub dm d wid) d' =
      if d = d' then (subsOf dm d).erase wid else subsOf dm d' := by
  simp [Dep.removeSub, subsOf_setSubs]

/-! ### Structure of addDep and its folds -/

theorem addDep_shape (s : RState) (d : Nat) :
    ∃ nd ni dm1, Watcher.addDep s d =
      { s with w := { s.w with newDeps := nd, newDepIds := ni }, dm := dm1 } := by
  unfold Watcher.addDep
  split
  · exact ⟨s.w.newDeps, s.w.newDepIds, s.dm, rfl⟩
  · split
    · exact ⟨_, _, s.dm, rfl⟩
    · exact ⟨_, _, _, rfl⟩

theorem foldAddDep_shape (L : List Nat) (s : RState) :
    ∃ nd ni dm1, L.foldl Watcher.addDep s =
      { s with w := { s.w with newDeps := nd, newDepIds := ni }, dm := dm1 } := by
  induction L generalizing s with
  | nil => exact ⟨s.w.newDeps, s.w.newDepIds, s.dm, rfl⟩
  | cons x xs ih =>
    obtain ⟨nd0, ni0, dm0, h0⟩ := addDep_shape s x
    obtain ⟨nd1, ni1, dm1, h1⟩ := ih (Watcher.addDep s x)
    rw [h0] at h1
    refine ⟨nd1, ni1, dm1, ?_⟩
    rw [List.foldl_cons, h0, h1]

/-- All watcher fields other than the new-generation buffers, and all
state components other than the subscriber map, are untouched by a fold of
addDep. -/
theorem foldAddDep_keeps (L : List Nat) (s : RState) :
    (L.foldl Watcher.addDep s).w.id = s.w.id ∧
    (L.foldl Watcher.addDep s).w.deps = s.w.deps ∧
    (L.foldl Watcher.addDep s).w.depIds = s.w.depIds ∧
    (L.foldl Watcher.addDep s).w.deep = s.w.deep ∧
    (L.foldl Watcher.addDep s).w.user = s.w.user ∧
    (L.foldl Watcher.addDep s).w.isLazy = s.w.isLazy ∧
    (L.foldl Watcher.addDep s).w.sync = s.w.sync ∧
    (L.foldl Watcher.addDep s).w.active = s.w.active ∧
    (L.foldl Watcher.addDep s).w.dirty = s.w.dirty ∧
    (L.foldl Watcher.addDep s).w.value = s.w.value ∧
    (L.foldl Watcher.addDep s).targetStack = s.targetStack ∧
    (L.foldl Watcher.addDep s).vmWatchers = s.vmWatchers ∧
    (L.foldl Watcher.addDep s).vmDestroying = s.vmDestroying := by
  obtain ⟨nd, ni, dm1, h⟩ := foldAddDep_shape L s
  rw [h]
  simp

theorem addDep_of_mem (s : RState) (x : Nat) (hx : x ∈ s.w.newDepIds) :
    Watcher.addDep s x = s := by
  simp [Watcher.addDep, hx]

theorem addDep_of_old (s : RState) (x : Nat) (hx : x ∉ s.w.newDepIds)
    (hold : x ∈ s.w.depIds) :
    Watcher.addDep s x =
      { s with w := { s.w with newDepIds := s.w.newDepIds ++ [x],
                               newDeps := s.w.newDeps ++ [x] } } := by
  simp [Watcher.addDep, hx, hold]

theorem addDep_of_new (s : RState) (x : Nat) (hx : x ∉ s.w.newDepIds)
    (hold : x ∉ s.w.depIds) :
    Watcher.addDep s x =
      { s with w := { s.w with newDepIds := s.w.newDepIds ++ [x],
                               newDeps := s.w.newDeps ++ [x] },
               dm := Dep.addSub s.dm x s.w.id } := by
  simp [Watcher.addDep, hx, hold]

/-- Invariant carried by a fold of addDep over any list of touched
dependency ids: the two new-generation buffers stay equal and duplicate
free, membership grows by exactly the touched ids, and the watcher is
subscribed (exactly once) exactly to the dependencies of the old generation
plus the new one. -/
theorem foldAddDep_spec (L : List Nat) (s : RState)
    (heq : s.w.newDepIds = s.w.newDeps) (hnodup : s.w.newDepIds.Nodup)
    (hcnt : ∀ d, (subsOf s.dm d).count s.w.id =
      if d ∈ s.w.depIds ∨ d ∈ s.w.newDepIds then 1 else 0) :
    ((L.foldl Watcher.addDep s).w.newDepIds = (L.foldl Watcher.addDep s).w.newDeps) ∧
    (L.foldl Watcher.addDep s).w.newDepIds.Nodup ∧
    (∀ d, d ∈ (L.foldl Watcher.addDep s).w.newDepIds ↔ d ∈ s.w.newDepIds ∨ d ∈ L) ∧
    (∀ d, (subsOf (L.foldl Watcher.addDep s).dm d).count s.w.id =
      if d ∈ s.w.depIds ∨ d ∈ (L.foldl Watcher.addDep s).w.newDepIds then 1 else 0) := by
  induction L generalizing s with
  | nil =>
    refine ⟨heq, hnodup, ?_, ?_⟩
    · intro d; simp
    · intro d; simpa using hcnt d
  | cons x xs ih =>
    rw [List.foldl_cons]
    by_cases hx : x ∈ s.w.newDepIds
    · rw [addDep_of_mem s x hx]
      obtain ⟨c1, c2, c3, c4⟩ := ih s heq hnodup hcnt
      refine ⟨c1, c2, ?_, c4⟩
      intro d
      rw [c3 d]
      constructor
      · rintro (h | h)
        · exact Or.inl h
        · exact Or.inr (List.mem_cons_of_mem _ h)
      · rintro (h | h)
        · exact Or.inl h
        · rcases List.mem_cons.mp h with rfl | h
          · exact Or.inl hx
          · exact Or.inr h
    · by_cases hold : x ∈ s.w.depIds
      · rw [addDep_of_old s x hx hold]
        obtain ⟨c1, c2, c3, c4⟩ :=
          ih { s with w := { s.w with newDepIds := s.w.newDepIds ++ [x],
                                      newDeps := s.w.newDeps ++ [x] } }
            (by simp [heq]) (by simp [List.nodup_append, hnodup, hx])
            (by
              intro d
              by_cases hdx : d = x
              · subst hdx; simpa [hold] using hcnt d
              · simpa [hdx] using hcnt d)
        refine ⟨c1, c2, ?_, ?_⟩
        · intro d
          rw [c3 d]
          simp only [List.mem_append, List.mem_singleton, List.mem_cons]
          tauto
        · intro d
          simpa using c4 d
      · rw [addDep_of_new s x hx hold]
        obtain ⟨c1, c2, c3, c4⟩ :=
          ih { s with w := { s.w with newDepIds := s.w.newDepIds ++ [x],
                                      newDeps := s.w.newDeps ++ [x] },
                      dm := Dep.addSub s.dm x s.w.id }
            (by simp [heq]) (by simp [List.nodup_append, hnodup, hx])
            (by
              intro d
              simp only [subsOf_addSub]
              by_cases hdx : d = x
              · subst hdx
                have h0 : (subsOf s.dm d).count s.w.id = 0 := by
                  simpa [hold, hx] using hcnt d
                simp [List.count_append, h0]
              · have hdx2 : ¬ x = d := fun h => hdx h.symm
                simp only [if_neg hdx2]
                simpa [hdx] using hcnt d)
        refine ⟨c1, c2, ?_, ?_⟩
        · intro d
          rw [c3 d]
          simp only [List.mem_append, List.mem_singleton, List.mem_cons]
          tauto
        · intro d
          simpa using c4 d

/-! ### The cleanup pass -/

theorem removeFold_count (L : List Nat) :
    ∀ (dm : DepMap) (wid : Nat) (newIds : List Nat) (d : Nat), L.Nodup →
    (subsOf (L.foldl (fun m x => if x ∈ newIds then m else Dep.removeSub m x wid) dm) d).count wid
      = if d ∈ L ∧ d ∉ newIds then (subsOf dm d).count wid - 1
        else (subsOf dm d).count wid := by
  induction L with
  | nil => intro dm wid newIds d _; simp
  | cons x xs ih =>
    intro dm wid newIds d hnd
    have hx : x ∉ xs := (List.nodup_cons.mp hnd).1
    have hnd2 : xs.Nodup := (List.nodup_cons.mp hnd).2
    rw [List.foldl_cons]
    by_cases hxn : x ∈ newIds
    · rw [if_pos hxn]
      rw [ih dm wid newIds d hnd2]
      by_cases hdx : d = x
      · subst hdx
        simp [hxn, hx]
      · simp [List.mem_cons, hdx]
    · rw [if_neg hxn]
      rw [ih (Dep.removeSub dm x wid) wid newIds d hnd2]
      by_cases hdx : d = x
      · subst hdx
        simp only [subsOf_removeSub, if_pos rfl, hx, hxn]
        simp [List.count_erase_self]
      · have hdx2 : ¬ x = d := fun h => hdx h.symm
        simp only [subsOf_removeSub, if_neg hdx2]
        simp [List.mem_cons, hdx]

theorem cleanupStale_count (dm : DepMap) (wid : Nat) (oldDeps newIds : List Nat)
    (hnd : oldDeps.Nodup) (d : Nat) :
    (subsOf (cleanupStale dm wid oldDeps newIds) d).count wid =
      if d ∈ oldDeps ∧ d ∉ newIds then (subsOf dm d).count wid - 1
      else (subsOf dm d).count wid := by
  unfold cleanupStale
  have := removeFold_count oldDeps.reverse dm wid newIds d
    (List.nodup_reverse.mpr hnd)
  simpa [List.mem_reverse] using this

/-! ### The state component of Watcher.get -/

theorem cleanupDeps_w (s : RState) :
    (Watcher.cleanupDeps s).w =
      { s.w with depIds := s.w.newDepIds, newDepIds := [],
                 deps := s.w.newDeps, newDeps := [] } := rfl

theorem cleanupDeps_dm (s : RState) :
    (Watcher.cleanupDeps s).dm = cleanupStale s.dm s.w.id s.w.deps s.w.newDepIds := rfl

theorem cleanupDeps_ts (s : RState) :
    (Watcher.cleanupDeps s).targetStack = s.targetStack := rfl

theorem cleanupDeps_vmw (s : RState) :
    (Watcher.cleanupDeps s).vmWatchers = s.vmWatchers := rfl

theorem cleanupDeps_vmd (s : RState) :
    (Watcher.cleanupDeps s).vmDestroying = s.vmDestroying := rfl

/-- Full characterisation of the state left behind by one run of
Watcher.get, starting from a watcher whose buffers are clean and whose
dependency relation is mutually consistent (subscribed exactly once to
exactly its collected dependencies). -/
theorem get_state_spec (g : GetterSpec) (dt : Value → List Nat) (s : RState)
    (hnd : s.w.newDeps = []) (hni : s.w.newDepIds = [])
    (hdi : s.w.depIds = s.w.deps) (hdd : s.w.deps.Nodup)
    (hcnt : ∀ d, (subsOf s.dm d).count s.w.id = if d ∈ s.w.deps then 1 else 0) :
    (Watcher.get g dt s).1.w.deps.Nodup ∧
    (∀ d, d ∈ (Watcher.get g dt s).1.w.deps ↔ d ∈ recordedDeps g dt s.w) ∧
    (Watcher.get g dt s).1.w.depIds = (Watcher.get g dt s).1.w.deps ∧
    (Watcher.get g dt s).1.w.newDeps = [] ∧
    (Watcher.get g dt s).1.w.newDepIds = [] ∧
    (∀ d, (subsOf (Watcher.get g dt s).1.dm d).count s.w.id =
      if d ∈ recordedDeps g dt s.w then 1 else 0) ∧
    (Watcher.get g dt s).1.targetStack = s.targetStack ∧
    (Watcher.get g dt s).1.w.id = s.w.id ∧
    (Watcher.get g dt s).1.w.deep = s.w.deep ∧
    (Watcher.get g dt s).1.w.user = s.w.user ∧
    (Watcher.get g dt s).1.w.isLazy = s.w.isLazy ∧
    (Watcher.get g dt s).1.w.sync = s.w.sync ∧
    (Watcher.get g dt s).1.w.active = s.w.active ∧
    (Watcher.get g dt s).1.w.dirty = s.w.dirty ∧
    (Watcher.get g dt s).1.w.value = s.w.value ∧
    (Watcher.get g dt s).1.vmWatchers = s.vmWatchers ∧
    (Watcher.get g dt s).1.vmDestroying = s.vmDestroying := by
  set s1 : RState := { s with targetStack := s.w.id :: s.targetStack } with hs1
  set s2 := g.touched.foldl Watcher.addDep s1 with hs2
  set s3 := (if s2.w.deep then (dt (gotValue g)).foldl Watcher.addDep s2 else s2) with hs3
  have hfst : (Watcher.get g dt s).1 =
      Watcher.cleanupDeps { s3 with targetStack := s3.targetStack.tail } := by
    rw [hs3, hs2, hs1]; rfl
  have hk2 := foldAddDep_keeps g.touched s1
  rw [← hs2] at hk2
  obtain ⟨k2id, k2deps, k2depIds, k2deep, k2user, k2lazy, k2sync, k2active,
    k2dirty, k2value, k2ts, k2vmw, k2vmd⟩ := hk2
  have hid2 : s2.w.id = s.w.id := k2id.trans rfl
  have hdeps2 : s2.w.deps = s.w.deps := k2deps.trans rfl
  have hdepIds2 : s2.w.depIds = s.w.depIds := k2depIds.trans rfl
  have hdeep2 : s2.w.deep = s.w.deep := k2deep.trans rfl
  have h1eq : s1.w.newDepIds = s1.w.newDeps := by
    show s.w.newDepIds = s.w.newDeps
    rw [hni, hnd]
  have h1nodup : s1.w.newDepIds.Nodup := by
    show s.w.newDepIds.Nodup
    rw [hni]; exact List.nodup_nil
  have h1cnt : ∀ d, (subsOf s1.dm d).count s1.w.id =
      if d ∈ s1.w.depIds ∨ d ∈ s1.w.newDepIds then 1 else 0 := by
    intro d
    show (subsOf s.dm d).count s.w.id = if d ∈ s.w.depIds ∨ d ∈ s.w.newDepIds then 1 else 0
    rw [hni, hdi]
    simpa using hcnt d
  obtain ⟨a2eq, a2nodup, a2mem, a2cnt⟩ := foldAddDep_spec g.touched s1 h1eq h1nodup h1cnt
  rw [← hs2] at a2eq a2nodup a2mem a2cnt
  have a2cnt' : ∀ d, (subsOf s2.dm d).count s.w.id =
      if d ∈ s.w.depIds ∨ d ∈ s2.w.newDepIds then 1 else 0 := by
    intro d
    exact a2cnt d
  have a2mem' : ∀ d, d ∈ s2.w.newDepIds ↔ d ∈ g.touched := by
    intro d
    have := a2mem d
    rw [show s1.w.newDepIds = ([] : List Nat) from hni] at this
    simpa using this
  have h3 : (s3.w.newDepIds = s3.w.newDeps) ∧ s3.w.newDepIds.Nodup ∧
      (∀ d, d ∈ s3.w.newDepIds ↔ d ∈ recordedDeps g dt s.w) ∧
      (∀ d, (subsOf s3.dm d).count s.w.id =
        if d ∈ s.w.depIds ∨ d ∈ s3.w.newDepIds then 1 else 0) ∧
      s3.w.id = s.w.id ∧ s3.w.deps = s.w.deps ∧ s3.w.depIds = s.w.depIds ∧
      s3.w.deep = s.w.deep ∧ s3.w.user = s.w.user ∧ s3.w.isLazy = s.w.isLazy ∧
      s3.w.sync = s.w.sync ∧ s3.w.active = s.w.active ∧ s3.w.dirty = s.w.dirty ∧
      s3.w.value = s.w.value ∧ s3.targetStack = s1.targetStack ∧
      s3.vmWatchers = s.vmWatchers ∧ s3.vmDestroying = s.vmDestroying := by
    by_cases hdeep : s2.w.deep
    · have hs3e : s3 = (dt (gotValue g)).foldl Watcher.addDep s2 := by
        rw [hs3, if_pos hdeep]
      have hsdeep : s.w.deep = true := by rw [← hdeep2]; exact hdeep
      have hcnt2 : ∀ d, (subsOf s2.dm d).count s2.w.id =
          if d ∈ s2.w.depIds ∨ d ∈ s2.w.newDepIds then 1 else 0 := by
        intro d
        rw [hid2, hdepIds2]
        exact a2cnt' d
      obtain ⟨b2eq, b2nodup, b2mem, b2cnt⟩ :=
        foldAddDep_spec (dt (gotValue g)) s2 a2eq a2nodup hcnt2
      have hk3 := foldAddDep_keeps (dt (gotValue g)) s2
      rw [← hs3e] at b2eq b2nodup b2mem b2cnt hk3
      obtain ⟨k3id, k3deps, k3depIds, k3deep, k3user, k3lazy, k3sync, k3active,
        k3dirty, k3value, k3ts, k3vmw, k3vmd⟩ := hk3
      refine ⟨b2eq, b2nodup, ?_, ?_, ?_, ?_, ?_, ?_, ?_, ?_, ?_, ?_, ?_, ?_, ?_, ?_, ?_⟩
      · intro d
        rw [b2mem d, a2mem' d]
        simp [recordedDeps, hsdeep]
      · intro d
        have := b2cnt d
        rw [hid2, hdepIds2] at this
        exact this
      · rw [k3id]; exact hid2
      · rw [k3deps]; exact hdeps2
      · rw [k3depIds]; exact hdepIds2
      · rw [k3deep]; exact hdeep2
      · rw [k3user]; exact k2user.trans rfl
      · rw [k3lazy]; exact k2lazy.trans rfl
      · rw [k3sync]; exact k2sync.trans rfl
      · rw [k3active]; exact k2active.trans rfl
      · rw [k3dirty]; exact k2dirty.trans rfl
      · rw [k3value]; exact k2value.trans rfl
      · rw [k3ts]; exact k2ts
      · rw [k3vmw]; exact k2vmw.trans rfl
      · rw [k3vmd]; exact k2vmd.trans rfl
    · have hs3e : s3 = s2 := by
        rw [hs3, if_neg hdeep]
      have hsdeep : s.w.deep = false := by
        rw [← hdeep2]; exact Bool.eq_false_iff.mpr hdeep
      rw [hs3e]
      refine ⟨a2eq, a2nodup, ?_, ?_, ?_, ?_, ?_, ?_, ?_, ?_, ?_, ?_, ?_, ?_, ?_, ?_, ?_⟩
      · intro d
        rw [a2mem' d]
        simp [recordedDeps, hsdeep]
      · exact a2cnt'
      · exact hid2
      · exact hdeps2
      · exact hdepIds2
      · exact hdeep2
      · exact k2user.trans rfl
      · exact k2lazy.trans rfl
      · exact k2sync.trans rfl
      · exact k2active.trans rfl
      · exact k2dirty.trans rfl
      · exact k2value.trans rfl
      · exact k2ts
      · exact k2vmw.trans rfl
      · exact k2vmd.trans rfl
  obtain ⟨e1, e2, e3, e4, e5, e6, e7, e8, e9, e10, e11, e12, e13, e14, e15, e16, e17⟩ := h3
  rw [hfst]
  simp only [cleanupDeps_w, cleanupDeps_dm, cleanupDeps_ts, cleanupDeps_vmw, cleanupDeps_vmd]
  refine ⟨?_, ?_, ?_, trivial, trivial, ?_, ?_, ?_, ?_, ?_, ?_, ?_, ?_, ?_, ?_, ?_, ?_⟩
  · show s3.w.newDeps.Nodup
    rw [← e1]; exact e2
  · intro d
    show d ∈ s3.w.newDeps ↔ _
    rw [← e1]; exact e3 d
  · show s3.w.newDepIds = s3.w.newDeps
    exact e1
  · intro d
    show (subsOf (cleanupStale s3.dm s3.w.id s3.w.deps s3.w.newDepIds) d).count s.w.id = _
    rw [e5, e6]
    rw [cleanupStale_count s3.dm s.w.id s.w.deps s3.w.newDepIds hdd d]
    rw [e4 d, hdi]
    by_cases hmem : d ∈ s3.w.newDepIds
    · have hL : d ∈ recordedDeps g dt s.w := (e3 d).mp hmem
      simp [hmem, hL]
    · have hL : d ∉ recordedDeps g dt s.w := fun h => hmem ((e3 d).mpr h)
      by_cases hdeps : d ∈ s.w.deps
      · simp [hmem, hL, hdeps]
      · simp [hmem, hL, hdeps]
  · show s3.targetStack.tail = s.targetStack
    rw [e15]
    rfl
  · exact e5
  · exact e8
  · exact e9
  · exact e10
  · exact e11
  · exact e12
  · exact e13
  · exact e14
  · exact e16
  · exact e17

/-! ### Events and result of Watcher.get; unconditional preservation -/

theorem foldAddDep_user (L : List Nat) (s : RState) :
    (L.foldl Watcher.addDep s).w.user = s.w.user :=
  (foldAddDep_keeps L s).2.2.2.2.1

/-- Watcher.get never changes the watcher's identity, flags or cached value,
and always restores the target stack (the pop happens in the finally
block). -/
theorem get_keeps (g : GetterSpec) (dt : Value → List Nat) (s : RState) :
    (Watcher.get g dt s).1.w.id = s.w.id ∧
    (Watcher.get g dt s).1.w.deep = s.w.deep ∧
    (Watcher.get g dt s).1.w.user = s.w.user ∧
    (Watcher.get g dt s).1.w.isLazy = s.w.isLazy ∧
    (Watcher.get g dt s).1.w.sync = s.w.sync ∧
    (Watcher.get g dt s).1.w.active = s.w.active ∧
    (Watcher.get g dt s).1.w.dirty = s.w.dirty ∧
    (Watcher.get g dt s).1.w.value = s.w.value ∧
    (Watcher.get g dt s).1.targetStack = s.targetStack ∧
    (Watcher.get g dt s).1.vmWatchers = s.vmWatchers ∧
    (Watcher.get g dt s).1.vmDestroying = s.vmDestroying := by
  set s1 : RState := { s with targetStack := s.w.id :: s.targetStack } with hs1
  set s2 := g.touched.foldl Watcher.addDep s1 with hs2
  set s3 := (if s2.w.deep then (dt (gotValue g)).foldl Watcher.addDep s2 else s2) with hs3
  have hfst : (Watcher.get g dt s).1 =
      Watcher.cleanupDeps { s3 with targetStack := s3.targetStack.tail } := by
    rw [hs3, hs2, hs1]; rfl
  have hk2 := foldAddDep_keeps g.touched s1
  rw [← hs2] at hk2
  obtain ⟨k2id, _, _, k2deep, k2user, k2lazy, k2sync, k2active,
    k2dirty, k2value, k2ts, k2vmw, k2vmd⟩ := hk2
  have h3 : s3.w.id = s.w.id ∧ s3.w.deep = s.w.deep ∧ s3.w.user = s.w.user ∧
      s3.w.isLazy = s.w.isLazy ∧ s3.w.sync = s.w.sync ∧ s3.w.active = s.w.active ∧
      s3.w.dirty = s.w.dirty ∧ s3.w.value = s.w.value ∧
      s3.targetStack = s1.targetStack ∧ s3.vmWatchers = s.vmWatchers ∧
      s3.vmDestroying = s.vmDestroying := by
    by_cases hdeep : s2.w.deep
    · have hs3e : s3 = (dt (gotValue g)).foldl Watcher.addDep s2 := by
        rw [hs3, if_pos hdeep]
      have hk3 := foldAddDep_keeps (dt (gotValue g)) s2
      rw [← hs3e] at hk3
      obtain ⟨k3id, _, _, k3deep, k3user, k3lazy, k3sync, k3active,
        k3dirty, k3value, k3ts, k3vmw, k3vmd⟩ := hk3
      exact ⟨k3id.trans (k2id.trans rfl), k3deep.trans (k2deep.trans rfl),
        k3user.trans (k2user.trans rfl), k3lazy.trans (k2lazy.trans rfl),
        k3sync.trans (k2sync.trans rfl), k3active.trans (k2active.trans rfl),
        k3dirty.trans (k2dirty.trans rfl), k3value.trans (k2value.trans rfl),
        k3ts.trans k2ts, k3vmw.trans (k2vmw.trans rfl), k3vmd.trans (k2vmd.trans rfl)⟩
    · have hs3e : s3 = s2 := by rw [hs3, if_neg hdeep]
      rw [hs3e]
      exact ⟨k2id.trans rfl, k2deep.trans rfl, k2user.trans rfl, k2lazy.trans rfl,
        k2sync.trans rfl, k2active.trans rfl, k2dirty.trans rfl, k2value.trans rfl,
        k2ts, k2vmw.trans rfl, k2vmd.trans rfl⟩
  obtain ⟨e1, e2, e3, e4, e5, e6, e7, e8, e9, e10, e11⟩ := h3
  rw [hfst]
  refine ⟨e1, e2, e3, e4, e5, e6, e7, e8, ?_, e10, e11⟩
  show s3.targetStack.tail = s.targetStack
  rw [e9]
  rfl

theorem get_result_ok (g : GetterSpec) (dt : Value → List Nat) (s : RState)
    (v : Value) (hok : g.result = GResult.ok v) :
    (Watcher.get g dt s).2.1 = [Event.getterInvoked] ∧
    (Watcher.get g dt s).2.2 = GResult.ok v := by
  have hv : gotValue g = v := by simp [gotValue, hok]
  simp only [Watcher.get, hok, hv]
  simp

theorem get_result_thrown_user (g : GetterSpec) (dt : Value → List Nat) (s : RState)
    (hth : g.result = GResult.thrown) (hu : s.w.user = true) :
    (Watcher.get g dt s).2.1 = [Event.getterInvoked, Event.errorHandled] ∧
    (Watcher.get g dt s).2.2 = GResult.ok Value.undef := by
  have hv : gotValue g = Value.undef := by simp [gotValue, hth]
  have hu2 : (g.touched.foldl Watcher.addDep
      { s with targetStack := s.w.id :: s.targetStack }).w.user = true := by
    rw [foldAddDep_user]; exact hu
  simp only [Watcher.get, hth, hv, hu2]
  simp

theorem get_result_thrown_nonuser (g : GetterSpec) (dt : Value → List Nat) (s : RState)
    (hth : g.result = GResult.thrown) (hu : s.w.user = false) :
    (Watcher.get g dt s).2.1 = [Event.getterInvoked] ∧
    (Watcher.get g dt s).2.2 = GResult.thrown := by
  have hv : gotValue g = Value.undef := by simp [gotValue, hth]
  have hu2 : (g.touched.foldl Watcher.addDep
      { s with targetStack := s.w.id :: s.targetStack }).w.user = false := by
    rw [foldAddDep_user]; exact hu
  simp only [Watcher.get, hth, hv, hu2]
  simp

/-! ### Run, teardown and notify lemmas -/

theorem removeAll_count (L : List Nat) : ∀ (dm : DepMap) (wid d : Nat), L.Nodup →
    (subsOf (L.foldl (fun m x => Dep.removeSub m x wid) dm) d).count wid =
      if d ∈ L then (subsOf dm d).count wid - 1 else (subsOf dm d).count wid := by
  induction L with
  | nil => intro dm wid d _; simp
  | cons x xs ih =>
    intro dm wid d hnd
    have hx : x ∉ xs := (List.nodup_cons.mp hnd).1
    have hnd2 := (List.nodup_cons.mp hnd).2
    rw [List.foldl_cons, ih (Dep.removeSub dm x wid) wid d hnd2]
    by_cases hdx : d = x
    · subst hdx
      simp only [subsOf_removeSub, if_pos rfl]
      simp [hx, List.count_erase_self]
    · have hdx2 : ¬ x = d := fun h => hdx h.symm
      simp only [subsOf_removeSub, if_neg hdx2]
      simp [List.mem_cons, hdx]

theorem notifySnapshot_skips (g : GetterSpec) (dt : Value → List Nat) (cbT : Bool)
    (snap : List Nat) (s : RState) (evs : List Event) (h : s.w.id ∉ snap) :
    notifySnapshot g dt cbT snap s evs = (s, evs, false) := by
  induction snap with
  | nil => rfl
  | cons x xs ih =>
    have hx : ¬ x = s.w.id := fun he => h (by rw [he]; exact List.mem_cons_self _ _)
    simp only [notifySnapshot, if_neg hx]
    exact ih (fun hm => h (List.mem_cons_of_mem _ hm))

theorem run_fired (g : GetterSpec) (dt : Value → List Nat) (cbT : Bool) (s : RState)
    (v : Value) (hact : s.w.active = true) (hok : g.result = GResult.ok v)
    (hcond : (!(strictEq v s.w.value) || isObject v || s.w.deep) = true) :
    Watcher.run g dt cbT s =
      ({ (Watcher.get g dt s).1 with w := { (Watcher.get g dt s).1.w with value := v } },
       [Event.getterInvoked] ++ [Event.cbCall v s.w.value] ++
         (if s.w.user && cbT then [Event.errorHandled] else []),
       !s.w.user && cbT) := by
  obtain ⟨kid, kdeep, kuser, klazy, ksync, kact, kdirty, kvalue, kts, kvmw, kvmd⟩ :=
    get_keeps g dt s
  have hres := (get_result_ok g dt s v hok).2
  have hevs := (get_result_ok g dt s v hok).1
  simp only [Watcher.run, hact, if_true, hres, hevs]
  rw [kvalue, kdeep, kuser]
  rw [if_pos hcond]
  by_cases hu : s.w.user = true
  · by_cases hcb : cbT = true
    · simp [hu, hcb]
    · have hcb2 : cbT = false := by
        cases cbT
        · rfl
        · exact absurd rfl hcb
      simp [hu, hcb2]
  · have hu2 : s.w.user = false := by
      cases h : s.w.user
      · rfl
      · exact absurd h hu
    simp [hu2]

theorem run_not_fired (g : GetterSpec) (dt : Value → List Nat) (cbT : Bool) (s : RState)
    (v : Value) (hact : s.w.active = true) (hok : g.result = GResult.ok v)
    (hcond : (!(strictEq v s.w.value) || isObject v || s.w.deep) = false) :
    Watcher.run g dt cbT s = ((Watcher.get g dt s).1, [Event.getterInvoked], false) := by
  obtain ⟨kid, kdeep, kuser, klazy, ksync, kact, kdirty, kvalue, kts, kvmw, kvmd⟩ :=
    get_keeps g dt s
  have hres := (get_result_ok g dt s v hok).2
  have hevs := (get_result_ok g dt s v hok).1
  simp only [Watcher.run, hact, if_true, hres, hevs]
  rw [kvalue, kdeep]
  rw [if_neg (by rw [hcond]; exact Bool.false_ne_true)]

theorem run_inactive (g : GetterSpec) (dt : Value → List Nat) (cbT : Bool) (s : RState)
    (hact : s.w.active = false) :
    Watcher.run g dt cbT s = (s, [], false) := by
  simp [Watcher.run, hact]

theorem teardown_inactive (s : RState) (h : s.w.active = false) :
    Watcher.teardown s = s := by
  simp [Watcher.teardown, h]

theorem teardown_active (s : RState) (hact : s.w.active = true) :
    Watcher.teardown s =
      { s with vmWatchers :=
                 if !s.vmDestroying then s.vmWatchers.erase s.w.id else s.vmWatchers,
               dm := s.w.deps.reverse.foldl (fun m d => Dep.removeSub m d s.w.id) s.dm,
               w := { s.w with active := false } } := by
  simp [Watcher.teardown, hact]

/-! ### Concrete fixtures used by the witnesses -/

/-- A freshly constructed internal watcher with no collected dependencies. -/
def wX : Watcher :=
  ⟨1, false, false, false, false, true, false, [], [], [], [], Value.undef⟩

/-- A user deep-free watcher that currently holds dependency 5. -/
def wY : Watcher :=
  ⟨2, false, true, false, false, true, false, [5], [5], [], [], Value.num (JsNum.int 1)⟩

def sX : RState := ⟨wX, [], [], [1], false⟩

def sY : RState := ⟨wY, [(5, [2])], [], [2], false⟩

def gX : GetterSpec := ⟨[7, 7, 9], GResult.ok (Value.num (JsNum.int 3))⟩

def gThrow : GetterSpec := ⟨[7], GResult.thrown⟩

def dtX : Value → List Nat := fun _ => []

/-! ### Claims about the watcher lifecycle -/

/-- Claim C1: after a call to get() completes, the watcher's deps array holds
exactly the dependencies recorded via addDep during that evaluation (each at
most once, keyed by dep id, with depIds mirroring deps), and the watcher has
been removed (removeSub) from every dependency of the previous evaluation
that was not recorded this time: afterwards it is subscribed exactly once to
exactly the recorded dependencies, so the relation is mutually consistent. -/
theorem claim_C1_get_reconciles_deps (g : GetterSpec) (dt : Value → List Nat) (s : RState)
    (hnd : s.w.newDeps = []) (hni : s.w.newDepIds = [])
    (hdi : s.w.depIds = s.w.deps) (hdd : s.w.deps.Nodup)
    (hcnt : ∀ d, (subsOf s.dm d).count s.w.id = if d ∈ s.w.deps then 1 else 0) :
    (Watcher.get g dt s).1.w.deps.Nodup ∧
    (∀ d, d ∈ (Watcher.get g dt s).1.w.deps ↔ d ∈ recordedDeps g dt s.w) ∧
    (Watcher.get g dt s).1.w.depIds = (Watcher.get g dt s).1.w.deps ∧
    (∀ d, (subsOf (Watcher.get g dt s).1.dm d).count s.w.id =
      if d ∈ recordedDeps g dt s.w then 1 else 0) := by
  obtain ⟨h1, h2, h3, -, -, h6, -⟩ := get_state_spec g dt s hnd hni hdi hdd hcnt
  exact ⟨h1, h2, h3, h6⟩

theorem claim_C1_witness :
    (Watcher.get gX dtX sX).1.w.depIds = (Watcher.get gX dtX sX).1.w.deps := by
  have h := claim_C1_get_reconciles_deps gX dtX sX rfl rfl rfl
    (by simp [sX, wX]) (by intro d; simp [sX, wX, subsOf])
  exact h.2.2.1

/-- Claim C3: when the wrapped expression throws during get(), a user watcher
routes the exception to handleError and get returns undefined, a non-user
watcher rethrows it; in both cases the active-computation register is popped
and cleanupDeps (together with the deep traversal of the undefined value when
deep is set) still runs in the finally block, leaving the dependency
bookkeeping reconciled to the dependencies touched before the failure. -/
theorem claim_C3_getter_throw (g : GetterSpec) (dt : Value → List Nat) (s : RState)
    (hth : g.result = GResult.thrown)
    (hnd : s.w.newDeps = []) (hni : s.w.newDepIds = [])
    (hdi : s.w.depIds = s.w.deps) (hdd : s.w.deps.Nodup)
    (hcnt : ∀ d, (subsOf s.dm d).count s.w.id = if d ∈ s.w.deps then 1 else 0) :
    (s.w.user = true →
      Event.errorHandled ∈ (Watcher.get g dt s).2.1 ∧
      (Watcher.get g dt s).2.2 = GResult.ok Value.undef) ∧
    (s.w.user = false →
      (Watcher.get g dt s).2.2 = GResult.thrown ∧
      Event.errorHandled ∉ (Watcher.get g dt s).2.1) ∧
    (Watcher.get g dt s).1.targetStack = s.targetStack ∧
    (Watcher.get g dt s).1.w.newDeps = [] ∧
    (Watcher.get g dt s).1.w.newDepIds = [] ∧
    (∀ d, d ∈ (Watcher.get g dt s).1.w.deps ↔ d ∈ recordedDeps g dt s.w) ∧
    (∀ d, (subsOf (Watcher.get g dt s).1.dm d).count s.w.id =
      if d ∈ recordedDeps g dt s.w then 1 else 0) := by
  obtain ⟨-, h2, -, h4, h5, h6, h7, -⟩ := get_state_spec g dt s hnd hni hdi hdd hcnt
  refine ⟨?_, ?_, h7, h4, h5, h2, h6⟩
  · intro hu
    obtain ⟨he, hr⟩ := get_result_thrown_user g dt s hth hu
    rw [he, hr]
    simp
  · intro hu
    obtain ⟨he, hr⟩ := get_result_thrown_nonuser g dt s hth hu
    rw [he, hr]
    simp

theorem claim_C3_witness :
    Event.errorHandled ∈ (Watcher.get gThrow dtX sY).2.1 := by
  have h := claim_C3_getter_throw gThrow dtX sY rfl rfl rfl rfl
    (by simp [sY, wY]) (by
      intro d
      by_cases hd : d = 5
      · subst hd; simp [sY, wY, subsOf]
      · have hd2 : ¬ (5 : Nat) = d := fun h => hd h.symm
        simp [sY, wY, subsOf, hd, hd2])
  exact (h.1 rfl).1

/-- Claim C4: run() on an active watcher re-evaluates via get() and invokes
the callback with (newValue, oldValue) exactly when the new value differs
from the cached one by strict equality, or the new value is an object/array,
or deep mode is set; the cached value is replaced by the new one when the
callback fires, and a callback exception is contained via the error sink for
user watchers but propagates for internal ones. -/
theorem claim_C4_run_cb_policy (g : GetterSpec) (dt : Value → List Nat) (cbT : Bool)
    (s : RState) (v : Value)
    (hact : s.w.active = true) (hok : g.result = GResult.ok v) :
    ((!(strictEq v s.w.value) || isObject v || s.w.deep) = true →
      (Watcher.run g dt cbT s).1.w.value = v ∧
      Event.cbCall v s.w.value ∈ (Watcher.run g dt cbT s).2.1 ∧
      (s.w.user = true → (Watcher.run g dt cbT s).2.2 = false ∧
        (cbT = true → Event.errorHandled ∈ (Watcher.run g dt cbT s).2.1)) ∧
      (s.w.user = false → (Watcher.run g dt cbT s).2.2 = cbT)) ∧
    ((!(strictEq v s.w.value) || isObject v || s.w.deep) = false →
      (∀ nv ov, Event.cbCall nv ov ∉ (Watcher.run g dt cbT s).2.1) ∧
      (Watcher.run g dt cbT s).1.w.value = s.w.value ∧
      (Watcher.run g dt cbT s).2.2 = false) := by
  constructor
  · intro hcond
    rw [run_fired g dt cbT s v hact hok hcond]
    refine ⟨rfl, by simp, ?_, ?_⟩
    · intro hu
      constructor
      · simp [hu]
      · intro hcb
        simp [hu, hcb]
    · intro hu
      simp [hu]
  · intro hcond
    rw [run_not_fired g dt cbT s v hact hok hcond]
    obtain ⟨-, -, -, -, -, -, -, kvalue, -⟩ := get_keeps g dt s
    exact ⟨by intro nv ov; simp, kvalue, rfl⟩

theorem claim_C4_witness :
    Event.cbCall (Value.num (JsNum.int 3)) (Value.num (JsNum.int 1))
      ∈ (Watcher.run gX dtX true sY).2.1 := by
  have h := claim_C4_run_cb_policy gX dtX true sY (Value.num (JsNum.int 3)) rfl rfl
  exact ((h.1 (by decide)).2.1)

/-- Claim C5: teardown() on an active watcher removes it from the subscriber
list of every dependency it holds and clears the active flag; afterwards any
run() is a complete no-op (no re-evaluation, no callback, no state change),
which also covers a watcher still sitting in the scheduler queue, and a
second teardown() changes nothing. -/
theorem claim_C5_teardown (s : RState) (hact : s.w.active = true)
    (hdd : s.w.deps.Nodup)
    (hcnt : ∀ d, (subsOf s.dm d).count s.w.id = if d ∈ s.w.deps then 1 else 0) :
    (Watcher.teardown s).w.active = false ∧
    (∀ d, (subsOf (Watcher.teardown s).dm d).count s.w.id = 0) ∧
    (∀ g dt cbT, Watcher.run g dt cbT (Watcher.teardown s) = (Watcher.teardown s, [], false)) ∧
    Watcher.teardown (Watcher.teardown s) = Watcher.teardown s := by
  have hts := teardown_active s hact
  have hina : (Watcher.teardown s).w.active = false := by rw [hts]
  refine ⟨hina, ?_, ?_, ?_⟩
  · intro d
    rw [hts]
    show (subsOf (s.w.deps.reverse.foldl (fun m x => Dep.removeSub m x s.w.id) s.dm) d).count
      s.w.id = 0
    rw [removeAll_count s.w.deps.reverse s.dm s.w.id d (List.nodup_reverse.mpr hdd)]
    by_cases hd : d ∈ s.w.deps
    · simp [List.mem_reverse, hd, hcnt d]
    · simp [List.mem_reverse, hd, hcnt d]
  · intro g dt cbT
    exact run_inactive g dt cbT _ hina
  · exact teardown_inactive _ hina

theorem claim_C5_witness :
    (Watcher.teardown sY).w.active = false ∧
    Watcher.teardown (Watcher.teardown sY) = Watcher.teardown sY := by
  have h := claim_C5_teardown sY rfl (by simp [sY, wY]) (by
    intro d
    by_cases hd : d = 5
    · subst hd; simp [sY, wY, subsOf]
    · have hd2 : ¬ (5 : Nat) = d := fun h => hd h.symm
      simp [sY, wY, subsOf, hd, hd2])
  exact ⟨h.1, h.2.2.2⟩

/-! ### Lazy watchers, the computed getter, and construction -/

theorem evaluate_ok (g : GetterSpec) (dt : Value → List Nat) (s : RState) (v : Value)
    (hok : g.result = GResult.ok v) :
    Watcher.evaluate g dt s =
      ({ (Watcher.get g dt s).1 with
          w := { (Watcher.get g dt s).1.w with value := v, dirty := false } },
       [Event.getterInvoked], false) := by
  have hres := (get_result_ok g dt s v hok).2
  have hevs := (get_result_ok g dt s v hok).1
  simp only [Watcher.evaluate, hres, hevs]

theorem computedGetter_clean (g : GetterSpec) (dt : Value → List Nat) (s : RState)
    (hdirty : s.w.dirty = false) (hts : s.targetStack = []) :
    computedGetter g dt s = (s, [], false, s.w.value) := by
  simp [computedGetter, hdirty, hts]

theorem computedGetter_dirty_ok (g : GetterSpec) (dt : Value → List Nat) (s : RState)
    (v : Value) (hok : g.result = GResult.ok v)
    (hdirty : s.w.dirty = true) (hts : s.targetStack = []) :
    computedGetter g dt s =
      ({ (Watcher.get g dt s).1 with
          w := { (Watcher.get g dt s).1.w with value := v, dirty := false } },
       [Event.getterInvoked], false, v) := by
  have he := evaluate_ok g dt s v hok
  obtain ⟨-, -, -, -, -, -, -, -, kts, -, -⟩ := get_keeps g dt s
  have hts2 : (Watcher.get g dt s).1.targetStack = [] := by rw [kts, hts]
  simp [computedGetter, hdirty, he, hts2]

theorem update_lazy (g : GetterSpec) (dt : Value → List Nat) (cbT : Bool) (s : RState)
    (hsl : s.w.isLazy = true) :
    Watcher.update g dt cbT s = ({ s with w := { s.w with dirty := true } }, [], false) := by
  simp [Watcher.update, hsl]

/-- Claim C6: a lazy watcher is not evaluated at construction (value starts
undefined, dirty starts true, the expression is not invoked); update() on a
lazy watcher merely sets dirty without invoking the expression or queueing;
the computed-property getter evaluates (clearing dirty) only when dirty and
otherwise returns the cached value without invoking the expression; and after
a dependency notification marks it dirty via update(), the next access
invokes the expression exactly once. -/
theorem claim_C6_lazy_watcher (uid0 : Nat) (e : ExpOrFn) (pg : String → GetterSpec)
    (opts : WOptions) (dt : Value → List Nat) (dm0 : DepMap) (ts0 vmw0 : List Nat)
    (vmd0 : Bool) (g : GetterSpec) (cbT : Bool) (s : RState) (v : Value)
    (hlazy : opts.isLazy = true) (hsl : s.w.isLazy = true) (hts : s.targetStack = [])
    (hok : g.result = GResult.ok v) :
    ((mkWatcher uid0 e pg opts dt dm0 ts0 vmw0 vmd0).2.1 = [] ∧
     (mkWatcher uid0 e pg opts dt dm0 ts0 vmw0 vmd0).1.w.value = Value.undef ∧
     (mkWatcher uid0 e pg opts dt dm0 ts0 vmw0 vmd0).1.w.dirty = true) ∧
    (Watcher.update g dt cbT s = ({ s with w := { s.w with dirty := true } }, [], false)) ∧
    (s.w.dirty = false → computedGetter g dt s = (s, [], false, s.w.value)) ∧
    (s.w.dirty = true →
      (computedGetter g dt s).2.1.count Event.getterInvoked = 1 ∧
      (computedGetter g dt s).1.w.dirty = false ∧
      (computedGetter g dt s).1.w.value = v ∧
      (computedGetter g dt s).2.2.2 = v) ∧
    ((computedGetter g dt (Watcher.update g dt cbT s).1).2.1.count Event.getterInvoked = 1) := by
  refine ⟨?_, update_lazy g dt cbT s hsl, ?_, ?_, ?_⟩
  · simp [mkWatcher, hlazy]
  · intro hdirty
    exact computedGetter_clean g dt s hdirty hts
  · intro hdirty
    rw [computedGetter_dirty_ok g dt s v hok hdirty hts]
    simp
  · rw [update_lazy g dt cbT s hsl]
    rw [computedGetter_dirty_ok g dt _ v hok (by simp) (by simpa using hts)]
    simp

def wL : Watcher :=
  ⟨3, false, false, true, false, true, true, [], [], [], [], Value.undef⟩

def sL : RState := ⟨wL, [], [], [3], false⟩

def optsL : WOptions := ⟨false, false, true, false⟩

theorem claim_C6_witness :
    (mkWatcher 9 (ExpOrFn.fn gX) (fun _ => noopGetter) optsL dtX [] [] [] false).1.w.dirty
        = true ∧
    (computedGetter gX dtX sL).2.2.2 = Value.num (JsNum.int 3) := by
  have h := claim_C6_lazy_watcher 9 (ExpOrFn.fn gX) (fun _ => noopGetter) optsL dtX
    [] [] [] false gX false sL (Value.num (JsNum.int 3)) rfl rfl rfl rfl
  exact ⟨h.1.2.2, (h.2.2.2.1 rfl).2.2.2⟩

/-- Claim C10: constructing a Watcher from a string expression that parsePath
cannot parse does not throw: the getter is replaced by noop, so the initial
evaluation yields undefined, the watcher collects no dependencies and is
subscribed nowhere, and notifying any dependency never reaches it (its
callback can never fire). -/
theorem claim_C10_unparsable_path (uid0 : Nat) (p : String) (pg : String → GetterSpec)
    (opts : WOptions) (dt : Value → List Nat) (dm0 : DepMap) (ts0 vmw0 : List Nat)
    (vmd0 : Bool)
    (hp : parsePathOk p = false) (hlazy : opts.isLazy = false)
    (hdt : dt Value.undef = [])
    (hfresh : ∀ d, (subsOf dm0 d).count (uid0 + 1) = 0) :
    (mkWatcher uid0 (ExpOrFn.path p) pg opts dt dm0 ts0 vmw0 vmd0).2.2 = false ∧
    (mkWatcher uid0 (ExpOrFn.path p) pg opts dt dm0 ts0 vmw0 vmd0).1.w.value = Value.undef ∧
    (mkWatcher uid0 (ExpOrFn.path p) pg opts dt dm0 ts0 vmw0 vmd0).1.w.deps = [] ∧
    (∀ d, (subsOf (mkWatcher uid0 (ExpOrFn.path p) pg opts dt dm0 ts0 vmw0 vmd0).1.dm d).count
        (uid0 + 1) = 0) ∧
    (∀ g2 dt2 cbT depId,
      Dep.notify g2 dt2 cbT depId (mkWatcher uid0 (ExpOrFn.path p) pg opts dt dm0 ts0 vmw0 vmd0).1
        = ((mkWatcher uid0 (ExpOrFn.path p) pg opts dt dm0 ts0 vmw0 vmd0).1, [], false)) := by
  set s0 : RState :=
    { w := { id := uid0 + 1, deep := opts.deep, user := opts.user,
             isLazy := false, sync := opts.sync, active := true, dirty := false,
             deps := [], depIds := [], newDeps := [], newDepIds := [],
             value := Value.undef },
      dm := dm0, targetStack := ts0, vmWatchers := vmw0 ++ [uid0 + 1],
      vmDestroying := vmd0 } with hs0
  have hmk : mkWatcher uid0 (ExpOrFn.path p) pg opts dt dm0 ts0 vmw0 vmd0 =
      ({ (Watcher.get noopGetter dt s0).1 with
          w := { (Watcher.get noopGetter dt s0).1.w with value := Value.undef } },
       [Event.getterInvoked], false) := by
    have hres := (get_result_ok noopGetter dt s0 Value.undef rfl).2
    have hevs := (get_result_ok noopGetter dt s0 Value.undef rfl).1
    simp only [mkWatcher, hp, hlazy, Bool.false_eq_true, if_false, ← hs0, hres, hevs]
  have hL : recordedDeps noopGetter dt s0.w = [] := by
    show ([] : List Nat) ++ (if opts.deep then dt (gotValue noopGetter) else []) = []
    cases hdeep : opts.deep
    · simp
    · simpa [gotValue, noopGetter] using hdt
  obtain ⟨g1, g2, g3, g4, g5, g6, g7, g8⟩ :=
    get_state_spec noopGetter dt s0 rfl rfl rfl (by simp)
      (by intro d; simpa using hfresh d)
  rw [hL] at g2 g6
  have hdeps : (Watcher.get noopGetter dt s0).1.w.deps = [] := by
    rw [List.eq_nil_iff_forall_not_mem]
    intro d hd
    simpa using (g2 d).mp hd
  have hcnt0 : ∀ d, (subsOf (Watcher.get noopGetter dt s0).1.dm d).count (uid0 + 1) = 0 := by
    intro d
    simpa using g6 d
  obtain ⟨kid, -⟩ := get_keeps noopGetter dt s0
  rw [hmk]
  refine ⟨rfl, rfl, ?_, ?_, ?_⟩
  · exact hdeps
  · intro d
    exact hcnt0 d
  · intro g2' dt2 cbT depId
    apply notifySnapshot_skips
    show (Watcher.get noopGetter dt s0).1.w.id ∉ _
    rw [kid]
    show (uid0 + 1) ∉ subsOf (Watcher.get noopGetter dt s0).1.dm depId
    intro hmem
    have := hcnt0 depId
    rw [List.count_eq_zero] at this
    exact this hmem

theorem claim_C10_witness :
    (mkWatcher 0 (ExpOrFn.path "a+b") (fun _ => noopGetter) ⟨false, true, false, false⟩
        dtX [] [] [] false).1.w.deps = [] := by
  have h := claim_C10_unparsable_path 0 "a+b" (fun _ => noopGetter)
    ⟨false, true, false, false⟩ dtX [] [] [] false (by decide) rfl rfl
    (by intro d; simp [subsOf])
  exact h.2.2.1

/-! ### The reactive accessor pair installed by defineReactive -/

/-- Closure state of one reactive accessor installed by defineReactive
(src/unnamed/part_002 lines 286-452): whether the original property
descriptor had a getter and a setter, the closure variable val, the storage
read and written through the original accessor pair, and the shallow flag. -/
structure RProp where
  hasGetter : Bool
  hasSetter : Bool
  val : Value
  acc : Value
  shallow : Bool
deriving DecidableEq, Repr

/-- The value reactiveGetter returns: through the original getter when one
existed, else the closure variable. -/
def reactiveGetterVal (p : RProp) : Value :=
  if p.hasGetter then p.acc else p.val

/-- reactiveSetter (src/unnamed/part_002 lines 410-450): compare the new
value against the old one (no-op when strictly equal or when both are NaN),
silently drop the write when the original descriptor had a getter but no
setter, otherwise store through the original setter or into the closure
variable, re-observe the new value when shallow is false, and notify.  The
result carries the new closure state, whether dep.notify ran, and the value
handed to observe (none when not re-observed). -/
def reactiveSetter (p : RProp) (newVal : Value) : RProp × Bool × Option Value :=
  let value := if p.hasGetter then p.acc else p.val
  if strictEq newVal value ||
      (!(strictEq newVal newVal) && !(strictEq value value)) then
    (p, false, none)
  else if p.hasGetter && !p.hasSetter then (p, false, none)
  else
    let p1 := if p.hasSetter then { p with acc := newVal } else { p with val := newVal }
    (p1, true, if p.shallow then none else some newVal)

theorem strictEq_self (v : Value) : strictEq v v = !(valueIsNaN v) := by
  unfold strictEq
  cases h : valueIsNaN v <;> simp [h]

/-- Counterexample to claim C2 as stated: a property whose original
descriptor had a getter but no setter currently reads 1; writing 2 (a value
that differs by strict equality and is not NaN) neither stores the new value
nor calls dep.notify, where the claim requires a store and exactly one
notification. -/
theorem claim_C2_counterexample :
    strictEq (Value.num (JsNum.int 2))
      (reactiveGetterVal ⟨true, false, Value.undef, Value.num (JsNum.int 1), false⟩) = false ∧
    valueIsNaN (Value.num (JsNum.int 2)) = false ∧
    reactiveSetter ⟨true, false, Value.undef, Value.num (JsNum.int 1), false⟩
        (Value.num (JsNum.int 2))
      = (⟨true, false, Value.undef, Value.num (JsNum.int 1), false⟩, false, none) := by
  decide

/-- Claim C2 (amended): writing a value strictly equal to the current one, or
NaN over NaN, is a no-op without notification; otherwise, when the property's
original descriptor had a getter but no setter the write is silently ignored
(no store, no notify); in all remaining cases the write stores the new value
(through the original setter when one existed, else in the closure variable),
re-observes it exactly when shallow is false, and calls dep.notify exactly
once. -/
theorem claim_C2_setter_policy (p : RProp) (newVal : Value) :
    ((strictEq newVal (reactiveGetterVal p) = true ∨
        (valueIsNaN newVal = true ∧ valueIsNaN (reactiveGetterVal p) = true)) →
      reactiveSetter p newVal = (p, false, none)) ∧
    (strictEq newVal (reactiveGetterVal p) = false →
      ¬(valueIsNaN newVal = true ∧ valueIsNaN (reactiveGetterVal p) = true) →
      p.hasGetter = true → p.hasSetter = false →
      reactiveSetter p newVal = (p, false, none)) ∧
    (strictEq newVal (reactiveGetterVal p) = false →
      ¬(valueIsNaN newVal = true ∧ valueIsNaN (reactiveGetterVal p) = true) →
      ¬(p.hasGetter = true ∧ p.hasSetter = false) →
      (reactiveSetter p newVal).2.1 = true ∧
      (if p.hasSetter then (reactiveSetter p newVal).1.acc
        else (reactiveSetter p newVal).1.val) = newVal ∧
      (reactiveSetter p newVal).2.2 = (if p.shallow then none else some newVal)) := by
  refine ⟨?_, ?_, ?_⟩
  · intro h
    have hcond : (strictEq newVal (reactiveGetterVal p) ||
        (!(strictEq newVal newVal) &&
         !(strictEq (reactiveGetterVal p) (reactiveGetterVal p)))) = true := by
      rcases h with h | ⟨h1, h2⟩
      · simp [h]
      · simp [strictEq_self, h1, h2]
    simp only [reactiveGetterVal] at hcond
    simp [reactiveSetter, hcond]
  · intro hne hnn hg hs
    have hnan : (valueIsNaN newVal && valueIsNaN (reactiveGetterVal p)) = false := by
      cases h1 : valueIsNaN newVal <;> cases h2 : valueIsNaN (reactiveGetterVal p) <;>
        simp_all
    have hcond : (strictEq newVal (reactiveGetterVal p) ||
        (!(strictEq newVal newVal) &&
         !(strictEq (reactiveGetterVal p) (reactiveGetterVal p)))) = false := by
      simp only [strictEq_self, Bool.not_not, hne]
      simpa using hnan
    simp only [reactiveGetterVal] at hcond
    simp [reactiveSetter, hcond, hg, hs]
  · intro hne hnn hro
    have hnan : (valueIsNaN newVal && valueIsNaN (reactiveGetterVal p)) = false := by
      cases h1 : valueIsNaN newVal <;> cases h2 : valueIsNaN (reactiveGetterVal p) <;>
        simp_all
    have hcond : (strictEq newVal (reactiveGetterVal p) ||
        (!(strictEq newVal newVal) &&
         !(strictEq (reactiveGetterVal p) (reactiveGetterVal p)))) = false := by
      simp only [strictEq_self, Bool.not_not, hne]
      simpa using hnan
    have hro2 : (p.hasGetter && !p.hasSetter) = false := by
      cases h1 : p.hasGetter <;> cases h2 : p.hasSetter <;> simp_all
    simp only [reactiveGetterVal] at hcond
    cases hs : p.hasSetter
    · have hgf : p.hasGetter = false := by
        cases hg : p.hasGetter
        · rfl
        · exact absurd ⟨hg, hs⟩ hro
      simp [hgf] at hcond
      have hcc : ¬(strictEq newVal newVal = false ∧ strictEq p.val p.val = false) := by
        rintro ⟨h1, h2⟩
        rw [hcond.2 h1] at h2
        exact absurd h2 (by simp)
      simp [reactiveSetter, hcond, hs, hgf, hcc]
    · simp [reactiveSetter, hcond, hro2, hs]

theorem claim_C2_witness :
    reactiveSetter ⟨false, false, Value.num JsNum.nan, Value.undef, false⟩
        (Value.num JsNum.nan)
      = (⟨false, false, Value.num JsNum.nan, Value.undef, false⟩, false, none) :=
  (claim_C2_setter_policy ⟨false, false, Value.num JsNum.nan, Value.undef, false⟩
    (Value.num JsNum.nan)).1 (Or.inr (by decide))

/-! ### The patched array mutation methods -/

/-- The seven mutating array methods patched by the observer
(src/src/core/observer/array.js). -/
inductive MName
  | push
  | pop
  | shift
  | unshift
  | splice
  | sort
  | reverse
deriving DecidableEq, Repr

/-- The inserted variable of the patched method's switch: the full argument
list for push and unshift, the arguments after the first two for splice, and
unset for the other methods. -/
def insertedOf : MName → List Value → Option (List Value)
  | .push, args => some args
  | .unshift, args => some args
  | .splice, args => some (args.drop 2)
  | _, _ => none

/-- The observed array together with its Observer bookkeeping: the element
list, the log of values handed to observe by ob.observeArray, and how many
times ob.dep.notify has run. -/
structure ArrOb where
  elems : List Value
  observedLog : List Value
  notifyCount : Nat
deriving DecidableEq, Repr

/-- mutator (src/src/core/observer/array.js lines 30-51): apply the cached
native method (the environment's Array.prototype method, given as a function
from the argument list and the current elements to the new elements and the
native result), observe any newly inserted elements via ob.observeArray, then
notify the array's dependency and return the native result unchanged. -/
def mutator (m : MName) (native : List Value → List Value → List Value × Value)
    (args : List Value) (st : ArrOb) : ArrOb × Value :=
  let r := native args st.elems
  let st1 := { st with elems := r.1 }
  let st2 := match insertedOf m args with
    | some ins => { st1 with observedLog := st1.observedLog ++ ins }
    | none => st1
  let st3 := { st2 with notifyCount := st2.notifyCount + 1 }
  (st3, r.2)

/-- The native push: append the arguments, return the new length. -/
def nativePush (args elems : List Value) : List Value × Value :=
  (elems ++ args, Value.num (JsNum.int ((elems.length + args.length : Nat) : Int)))

/-- The native pop: drop the last element, return it (undefined when empty). -/
def nativePop (_args elems : List Value) : List Value × Value :=
  (elems.dropLast, (elems.getLast?).getD Value.undef)

/-- The native reverse: reverse in place, return the array reference
(represented by the reversed elements being installed; the returned value is
the array itself, which the wrapper forwards unchanged). -/
def nativeReverse (_args elems : List Value) (self : Value) : List Value × Value :=
  (elems.reverse, self)

/-- Claim C7: each patched method first applies the native method, then for
push and unshift observes all arguments and for splice the arguments after
the first two (via ob.observeArray, which appends them to the observe log),
then calls ob.dep.notify exactly once, and returns the native result
unchanged. -/
theorem claim_C7_array_mutators (m : MName)
    (native : List Value → List Value → List Value × Value)
    (args : List Value) (st : ArrOb) :
    (mutator m native args st).2 = (native args st.elems).2 ∧
    (mutator m native args st).1.elems = (native args st.elems).1 ∧
    (mutator m native args st).1.notifyCount = st.notifyCount + 1 ∧
    ((m = MName.push ∨ m = MName.unshift) →
      (mutator m native args st).1.observedLog = st.observedLog ++ args) ∧
    (m = MName.splice →
      (mutator m native args st).1.observedLog = st.observedLog ++ args.drop 2) ∧
    ((m = MName.pop ∨ m = MName.shift ∨ m = MName.sort ∨ m = MName.reverse) →
      (mutator m native args st).1.observedLog = st.observedLog) := by
  refine ⟨?_, ?_, ?_, ?_, ?_, ?_⟩
  · cases m <;> simp [mutator, insertedOf]
  · cases m <;> simp [mutator, insertedOf]
  · cases m <;> simp [mutator, insertedOf]
  · rintro (rfl | rfl) <;> simp [mutator, insertedOf]
  · rintro rfl; simp [mutator, insertedOf]
  · rintro (rfl | rfl | rfl | rfl) <;> simp [mutator, insertedOf]

theorem claim_C7_witness :
    (mutator MName.push nativePush [Value.num (JsNum.int 9)]
        ⟨[Value.num (JsNum.int 4)], [], 0⟩).1.observedLog = [Value.num (JsNum.int 9)] := by
  have h := claim_C7_array_mutators MName.push nativePush [Value.num (JsNum.int 9)]
    ⟨[Value.num (JsNum.int 4)], [], 0⟩
  have := h.2.2.2.1 (Or.inl rfl)
  simpa using this

/-! ### A heap model for observation and deep traversal -/

/-- The metadata and own contents of one raw object or array on the heap. -/
structure HObj where
  plain : Bool
  extensible : Bool
  frozen : Bool
  isVue : Bool
  isVNode : Bool
  fields : List (String × Value)
  elems : List Value
deriving DecidableEq, Repr

/-- The heap: address to object record. -/
abbrev Heap := List (Nat × HObj)

def lookupH : Heap → Nat → Option HObj
  | [], _ => none
  | p :: rest, a => if p.1 = a then some p.2 else lookupH rest a

/-- Lookup in an address-to-id association list (used for the hidden __ob__
property and for dep ids). -/
def obLookup : List (Nat × Nat) → Nat → Option Nat
  | [], _ => none
  | p :: rest, a => if p.1 = a then some p.2 else obLookup rest a

/-- The address behind an object or array reference. -/
def addrOfV : Value → Option Nat
  | .obj a => some a
  | .arr a => some a
  | _ => none

/-- Array.isArray on a value. -/
def isArrV : Value → Bool
  | .arr _ => true
  | _ => false

/-- The child values the Observer constructor recurses into: the elements of
an array (observeArray), the own enumerable key values of a plain object
(walk, whose defineReactive calls observe on each value). -/
def childVals (v : Value) (o : HObj) : List Value :=
  match v with
  | .arr _ => o.elems
  | _ => o.fields.map Prod.snd

/-- Mutable state threaded through observe: the fixed heap of raw objects,
the __ob__ assignments (address to observer id, set non-enumerably by def),
the next fresh observer id, per-observer vmCount, and the global
shouldObserve switch. -/
structure OState where
  heap : Heap
  obOf : List (Nat × Nat)
  nextOb : Nat
  vmCounts : List (Nat × Nat)
  shouldObserve : Bool
deriving DecidableEq, Repr

/-- Increment one observer's vmCount. -/
def bumpVm : List (Nat × Nat) → Nat → List (Nat × Nat)
  | [], ob => [(ob, 1)]
  | p :: rest, ob => if p.1 = ob then (ob, p.2 + 1) :: rest else p :: bumpVm rest ob

/-- observe (src/unnamed/part_002 lines 227-260), with fuel bounding the
recursion depth (fuel 0 returns none without touching the state; it is never
reached from a sufficient budget).  Non-objects and VNodes are rejected, an
existing __ob__ is returned as is, and otherwise a new Observer is created
when the switch is on and the value is an extensible plain object or array
that is not a Vue instance: its constructor tags the value with the fresh
observer id first and then walks the children (the array-method patching has
no footprint in this state).  asRootData bumps the returned observer's
vmCount. -/
def observe : Nat → OState → Value → Bool → OState × Option Nat
  | 0, s, _, _ => (s, none)
  | Nat.succ n, s, v, asRoot =>
    match addrOfV v with
    | none => (s, none)
    | some a =>
      match lookupH s.heap a with
      | none => (s, none)
      | some o =>
        if o.isVNode then (s, none)
        else
          match obLookup s.obOf a with
          | some ob =>
            (if asRoot then { s with vmCounts := bumpVm s.vmCounts ob } else s, some ob)
          | none =>
            if s.shouldObserve && (isArrV v || o.plain) && o.extensible && !o.isVue then
              let ob := s.nextOb
              let s1 : OState := { s with obOf := (a, ob) :: s.obOf, nextOb := s.nextOb + 1 }
              let s2 := (childVals v o).foldl (fun st c => (observe n st c false).1) s1
              (if asRoot then { s2 with vmCounts := bumpVm s2.vmCounts ob } else s2, some ob)
            else (s, none)

/-- The recursive observation of a list of children. -/
def observeList (n : Nat) (s : OState) (l : List Value) : OState :=
  l.foldl (fun st c => (observe n st c false).1) s

theorem observe_succ (n : Nat) (s : OState) (v : Value) (asRoot : Bool) :
    observe (n + 1) s v asRoot =
      match addrOfV v with
      | none => (s, none)
      | some a =>
        match lookupH s.heap a with
        | none => (s, none)
        | some o =>
          if o.isVNode then (s, none)
          else
            match obLookup s.obOf a with
            | some ob =>
              (if asRoot then { s with vmCounts := bumpVm s.vmCounts ob } else s, some ob)
            | none =>
              if s.shouldObserve && (isArrV v || o.plain) && o.extensible && !o.isVue then
                let s1 : OState :=
                  { s with obOf := (a, s.nextOb) :: s.obOf, nextOb := s.nextOb + 1 }
                let s2 := observeList n s1 (childVals v o)
                (if asRoot then { s2 with vmCounts := bumpVm s2.vmCounts s.nextOb } else s2,
                 some s.nextOb)
              else (s, none) := rfl

/-- Everything observe preserves: the heap, the switch, and any already
established __ob__ assignment. -/
theorem observe_preserves : ∀ (n : Nat),
    (∀ s v r, (observe n s v r).1.heap = s.heap ∧
      (observe n s v r).1.shouldObserve = s.shouldObserve ∧
      (∀ a ob, obLookup s.obOf a = some ob → obLookup (observe n s v r).1.obOf a = some ob)) ∧
    (∀ s l, (observeList n s l).heap = s.heap ∧
      (observeList n s l).shouldObserve = s.shouldObserve ∧
      (∀ a ob, obLookup s.obOf a = some ob → obLookup (observeList n s l).obOf a = some ob)) := by
  intro n
  induction n with
  | zero =>
    constructor
    · intro s v r
      exact ⟨rfl, rfl, fun a ob h => h⟩
    · intro s l
      induction l generalizing s with
      | nil => exact ⟨rfl, rfl, fun a ob h => h⟩
      | cons c cs ih =>
        have h0 : (observe 0 s c false).1 = s := rfl
        have := ih (observe 0 s c false).1
        rw [h0] at this
        exact this
  | succ n ih =>
    have hval : ∀ s v r, (observe (n + 1) s v r).1.heap = s.heap ∧
        (observe (n + 1) s v r).1.shouldObserve = s.shouldObserve ∧
        (∀ a ob, obLookup s.obOf a = some ob →
          obLookup (observe (n + 1) s v r).1.obOf a = some ob) := by
      intro s v r
      rw [observe_succ]
      cases hv : addrOfV v with
      | none => exact ⟨rfl, rfl, fun a ob h => h⟩
      | some a =>
        dsimp only
        cases hl : lookupH s.heap a with
        | none => exact ⟨rfl, rfl, fun a' ob h => h⟩
        | some o =>
          dsimp only
          by_cases hvn : o.isVNode = true
          · simp only [hvn, if_true]
            exact ⟨by trivial, by trivial, fun a' ob h => h⟩
          · simp only [hvn, if_false, Bool.false_eq_true]
            cases hob : obLookup s.obOf a with
            | some ob0 =>
              cases r <;> exact ⟨by trivial, by trivial, fun a' ob h => h⟩
            | none =>
              dsimp only
              by_cases hcond : (s.shouldObserve && (isArrV v || o.plain) &&
                  o.extensible && !o.isVue) = true
              · simp only [hcond, if_true]
                set s1 : OState :=
                  { s with obOf := (a, s.nextOb) :: s.obOf, nextOb := s.nextOb + 1 } with hs1
                obtain ⟨p1, p2, p3⟩ := (ih.2) s1 (childVals v o)
                have hmono : ∀ a' ob, obLookup s.obOf a' = some ob →
                    obLookup (observeList n s1 (childVals v o)).obOf a' = some ob := by
                  intro a' ob h
                  apply p3
                  show obLookup ((a, s.nextOb) :: s.obOf) a' = some ob
                  have hne : ¬ a = a' := by
                    intro he
                    rw [he] at hob
                    rw [hob] at h
                    exact Option.noConfusion h
                  simp [obLookup, hne, h]
                cases r
                · exact ⟨p1, p2, hmono⟩
                · exact ⟨p1, p2, hmono⟩
              · simp only [hcond, if_false, Bool.false_eq_true]
                exact ⟨by trivial, by trivial, fun a' ob h => h⟩
    constructor
    · exact hval
    · intro s l
      induction l generalizing s with
      | nil => exact ⟨rfl, rfl, fun a ob h => h⟩
      | cons c cs ihl =>
        obtain ⟨q1, q2, q3⟩ := hval s c false
        obtain ⟨w1, w2, w3⟩ := ihl (observe (n + 1) s c false).1
        refine ⟨?_, ?_, ?_⟩
        · show (observeList (n + 1) (observe (n + 1) s c false).1 cs).heap = s.heap
          rw [w1, q1]
        · show (observeList (n + 1) (observe (n + 1) s c false).1 cs).shouldObserve
            = s.shouldObserve
          rw [w2, q2]
        · intro a ob h
          exact w3 a ob (q3 a ob h)

/-- When observe succeeds it leaves the value tagged: the reference resolves
to a non-VNode heap record, and the result state maps the address to the
returned observer. -/
theorem observe_some_spec (n : Nat) (s : OState) (v : Value) (r : Bool) (ob : Nat)
    (h : (observe n s v r).2 = some ob) :
    ∃ a o, addrOfV v = some a ∧ lookupH s.heap a = some o ∧ o.isVNode = false ∧
      obLookup (observe n s v r).1.obOf a = some ob := by
  cases n with
  | zero => exact absurd h (by simp [observe])
  | succ n =>
    rw [observe_succ] at h ⊢
    cases hv : addrOfV v with
    | none =>
      rw [hv] at h
      exact absurd h (by simp)
    | some a =>
      rw [hv] at h
      dsimp only at h ⊢
      cases hl : lookupH s.heap a with
      | none =>
        rw [hl] at h
        exact absurd h (by simp)
      | some o =>
        rw [hl] at h
        dsimp only at h ⊢
        by_cases hvn : o.isVNode = true
        · rw [if_pos hvn] at h
          exact absurd h (by simp)
        · rw [if_neg hvn] at h ⊢
          cases hob : obLookup s.obOf a with
          | some ob0 =>
            rw [hob] at h
            dsimp only at h ⊢
            refine ⟨a, o, rfl, hl, Bool.eq_false_iff.mpr hvn, ?_⟩
            have hob2 : ob0 = ob := by cases r <;> simpa using h
            subst hob2
            cases r <;> simpa using hob
          | none =>
            rw [hob] at h
            dsimp only at h ⊢
            by_cases hcond : (s.shouldObserve && (isArrV v || o.plain) &&
                o.extensible && !o.isVue) = true
            · rw [if_pos hcond] at h ⊢
              dsimp only at h ⊢
              refine ⟨a, o, rfl, hl, Bool.eq_false_iff.mpr hvn, ?_⟩
              have hobeq : s.nextOb = ob := by cases r <;> simpa using h
              have hstart : obLookup ((a, s.nextOb) :: s.obOf) a = some s.nextOb := by
                simp [obLookup]
              have hkeep := ((observe_preserves n).2
                { s with obOf := (a, s.nextOb) :: s.obOf, nextOb := s.nextOb + 1 }
                (childVals v o)).2.2 a s.nextOb hstart
              rw [← hobeq]
              cases r <;> simpa using hkeep
            · rw [if_neg hcond] at h
              exact absurd h (by simp)

/-- Claim C8: observe is idempotent.  Whenever observe returns an Observer
for a value, calling observe again on that value (with any positive fuel)
returns that same Observer from the tag on the value and leaves the state
exactly unchanged: no second Observer (and hence no second object-level Dep)
is ever constructed. -/
theorem claim_C8_observe_idempotent (n : Nat) (s : OState) (v : Value) (ob : Nat)
    (h : (observe n s v false).2 = some ob) :
    ∀ m, observe (m + 1) (observe n s v false).1 v false
      = ((observe n s v false).1, some ob) := by
  obtain ⟨a, o, hv, hl, hvn, hob⟩ := observe_some_spec n s v false ob h
  intro m
  have hheap : (observe n s v false).1.heap = s.heap :=
    ((observe_preserves n).1 s v false).1
  rw [observe_succ, hv]
  dsimp only
  rw [hheap, hl]
  dsimp only
  rw [if_neg (by rw [hvn]; exact Bool.false_ne_true), hob]
  rfl

theorem claim_C8_witness :
    (observe ((observe 2 ⟨[(0, ⟨true, true, false, false, false, [("k", Value.num (JsNum.int 1))], []⟩)],
        [], 10, [], true⟩ (Value.obj 0) false).1.nextOb + 1)
      (observe 2 ⟨[(0, ⟨true, true, false, false, false, [("k", Value.num (JsNum.int 1))], []⟩)],
        [], 10, [], true⟩ (Value.obj 0) false).1 (Value.obj 0) false).2 = some 10 := by
  have h := claim_C8_observe_idempotent 2
    ⟨[(0, ⟨true, true, false, false, false, [("k", Value.num (JsNum.int 1))], []⟩)],
      [], 10, [], true⟩ (Value.obj 0) 10 (by decide)
  rw [h _]

/-! ### Deep traversal -/

/-- The environment _traverse reads: the heap of raw objects and the dep id
of each value's __ob__ (absent when the value carries no observer). -/
structure TEnv where
  heap : Heap
  depIdOf : List (Nat × Nat)
deriving DecidableEq, Repr

/-- _traverse (src/src/core/observer/traverse.js lines 19-43), with fuel
bounding the recursion depth: none means the fuel ran out, some returns the
grown seen set.  Non-objects, frozen values and VNodes return immediately; a
value whose __ob__.dep.id is already in seen is skipped, otherwise its dep id
is added and the children are traversed from the last index down (the while
i-- loop). -/
def traverseF : Nat → TEnv → Value → List Nat → Option (List Nat)
  | 0, _, _, _ => none
  | Nat.succ n, env, val, seen =>
    match addrOfV val with
    | none => some seen
    | some a =>
      match lookupH env.heap a with
      | none => some seen
      | some o =>
        if o.frozen || o.isVNode then some seen
        else
          match obLookup env.depIdOf a with
          | some depId =>
            if depId ∈ seen then some seen
            else
              (childVals val o).reverse.foldl
                (fun acc c => match acc with
                  | none => none
                  | some sn => traverseF n env c sn) (some (depId :: seen))
          | none =>
            (childVals val o).reverse.foldl
              (fun acc c => match acc with
                | none => none
                | some sn => traverseF n env c sn) (some seen)

/-- Sequential traversal of a list of children. -/
def traverseListF (n : Nat) (env : TEnv) (l : List Value) (seen : List Nat) :
    Option (List Nat) :=
  l.foldl (fun acc c => match acc with
    | none => none
    | some sn => traverseF n env c sn) (some seen)

/-- traverse (src/src/core/observer/traverse.js lines 14-17): run _traverse
on the module-level seen set, then clear it, so consecutive top-level
traversals start from an empty set.  The result is the cleared seen set (or
none when the fuel ran out). -/
def traverse (n : Nat) (env : TEnv) (val : Value) (seenObjects : List Nat) :
    Option (List Nat) :=
  match traverseF n env val seenObjects with
  | none => none
  | some _ => some []

theorem traverseF_succ (n : Nat) (env : TEnv) (val : Value) (seen : List Nat) :
    traverseF (n + 1) env val seen =
      match addrOfV val with
      | none => some seen
      | some a =>
        match lookupH env.heap a with
        | none => some seen
        | some o =>
          if o.frozen || o.isVNode then some seen
          else
            match obLookup env.depIdOf a with
            | some depId =>
              if depId ∈ seen then some seen
              else traverseListF n env (childVals val o).reverse (depId :: seen)
            | none => traverseListF n env (childVals val o).reverse seen := rfl

theorem foldl_step_none (n : Nat) (env : TEnv) : ∀ cs : List Value,
    cs.foldl (fun acc c => match acc with
      | none => none
      | some sn => traverseF n env c sn) none = none := by
  intro cs
  induction cs with
  | nil => rfl
  | cons c cs ih => simpa using ih

theorem traverseListF_nil (n : Nat) (env : TEnv) (seen : List Nat) :
    traverseListF n env [] seen = some seen := rfl

theorem traverseListF_cons (n : Nat) (env : TEnv) (c : Value) (cs : List Value)
    (seen : List Nat) :
    traverseListF n env (c :: cs) seen =
      match traverseF n env c seen with
      | none => none
      | some s1 => traverseListF n env cs s1 := by
  unfold traverseListF
  rw [List.foldl_cons]
  cases h : traverseF n env c seen with
  | none =>
    dsimp only
    rw [h]
    exact foldl_step_none n env cs
  | some s1 =>
    dsimp only
    rw [h]

/-- Branch equations for one step of the traversal, phrased without exposing
the internal matcher. -/
theorem traverseF_prim (n : Nat) (env : TEnv) (v : Value) (seen : List Nat)
    (hv : addrOfV v = none) : traverseF (n + 1) env v seen = some seen := by
  rw [traverseF_succ, hv]

theorem traverseF_noheap (n : Nat) (env : TEnv) (v : Value) (a : Nat) (seen : List Nat)
    (hv : addrOfV v = some a) (hl : lookupH env.heap a = none) :
    traverseF (n + 1) env v seen = some seen := by
  rw [traverseF_succ, hv]
  dsimp only
  rw [hl]

theorem traverseF_guard (n : Nat) (env : TEnv) (v : Value) (a : Nat) (o : HObj)
    (seen : List Nat) (hv : addrOfV v = some a) (hl : lookupH env.heap a = some o)
    (hf : (o.frozen || o.isVNode) = true) :
    traverseF (n + 1) env v seen = some seen := by
  rw [traverseF_succ, hv]
  dsimp only
  rw [hl]
  dsimp only
  rw [if_pos hf]

theorem traverseF_seen (n : Nat) (env : TEnv) (v : Value) (a d : Nat) (o : HObj)
    (seen : List Nat) (hv : addrOfV v = some a) (hl : lookupH env.heap a = some o)
    (hf : (o.frozen || o.isVNode) = false) (hob : obLookup env.depIdOf a = some d)
    (hmem : d ∈ seen) :
    traverseF (n + 1) env v seen = some seen := by
  rw [traverseF_succ, hv]
  dsimp only
  rw [hl]
  dsimp only
  rw [if_neg (by rw [hf]; exact Bool.false_ne_true), hob]
  dsimp only
  rw [if_pos hmem]

theorem traverseF_dep (n : Nat) (env : TEnv) (v : Value) (a d : Nat) (o : HObj)
    (seen : List Nat) (hv : addrOfV v = some a) (hl : lookupH env.heap a = some o)
    (hf : (o.frozen || o.isVNode) = false) (hob : obLookup env.depIdOf a = some d)
    (hmem : d ∉ seen) :
    traverseF (n + 1) env v seen =
      traverseListF n env (childVals v o).reverse (d :: seen) := by
  rw [traverseF_succ, hv]
  dsimp only
  rw [hl]
  dsimp only
  rw [if_neg (by rw [hf]; exact Bool.false_ne_true), hob]
  dsimp only
  rw [if_neg hmem]

theorem traverseF_nob (n : Nat) (env : TEnv) (v : Value) (a : Nat) (o : HObj)
    (seen : List Nat) (hv : addrOfV v = some a) (hl : lookupH env.heap a = some o)
    (hf : (o.frozen || o.isVNode) = false) (hob : obLookup env.depIdOf a = none) :
    traverseF (n + 1) env v seen =
      traverseListF n env (childVals v o).reverse seen := by
  rw [traverseF_succ, hv]
  dsimp only
  rw [hl]
  dsimp only
  rw [if_neg (by rw [hf]; exact Bool.false_ne_true), hob]

/-- Fuel monotonicity for the traversal. -/
theorem traverse_mono : ∀ n : Nat,
    (∀ m env v seen r, n ≤ m → traverseF n env v seen = some r →
      traverseF m env v seen = some r) ∧
    (∀ m env l seen r, n ≤ m → traverseListF n env l seen = some r →
      traverseListF m env l seen = some r) := by
  intro n
  induction n with
  | zero =>
    constructor
    · intro m env v seen r _ h
      exact absurd h (by simp [traverseF])
    · intro m env l seen r _ h
      cases l with
      | nil => exact h
      | cons c cs =>
        rw [traverseListF_cons] at h
        rw [show traverseF 0 env c seen = none from rfl] at h
        exact absurd h (by simp)
  | succ n ih =>
    have V : ∀ m env v seen r, n + 1 ≤ m → traverseF (n + 1) env v seen = some r →
        traverseF m env v seen = some r := by
      intro m env v seen r hm h
      cases m with
      | zero => exact absurd hm (by omega)
      | succ m2 =>
        have hm2 : n ≤ m2 := by omega
        cases hv : addrOfV v with
        | none =>
          rw [traverseF_prim n env v seen hv] at h
          rw [traverseF_prim m2 env v seen hv]
          exact h
        | some a =>
          cases hl : lookupH env.heap a with
          | none =>
            rw [traverseF_noheap n env v a seen hv hl] at h
            rw [traverseF_noheap m2 env v a seen hv hl]
            exact h
          | some o =>
            by_cases hf : (o.frozen || o.isVNode) = true
            · rw [traverseF_guard n env v a o seen hv hl hf] at h
              rw [traverseF_guard m2 env v a o seen hv hl hf]
              exact h
            · have hf2 : (o.frozen || o.isVNode) = false := by
                cases hx : (o.frozen || o.isVNode)
                · rfl
                · exact absurd hx hf
              cases hob : obLookup env.depIdOf a with
              | some d =>
                by_cases hmem : d ∈ seen
                · rw [traverseF_seen n env v a d o seen hv hl hf2 hob hmem] at h
                  rw [traverseF_seen m2 env v a d o seen hv hl hf2 hob hmem]
                  exact h
                · rw [traverseF_dep n env v a d o seen hv hl hf2 hob hmem] at h
                  rw [traverseF_dep m2 env v a d o seen hv hl hf2 hob hmem]
                  exact ih.2 m2 env _ _ r hm2 h
              | none =>
                rw [traverseF_nob n env v a o seen hv hl hf2 hob] at h
                rw [traverseF_nob m2 env v a o seen hv hl hf2 hob]
                exact ih.2 m2 env _ _ r hm2 h
    refine ⟨V, ?_⟩
    intro m env l seen r hm h
    induction l generalizing seen with
    | nil => exact h
    | cons c cs ihl =>
      rw [traverseListF_cons] at h ⊢
      cases hc : traverseF (n + 1) env c seen with
      | none =>
        rw [hc] at h
        exact absurd h (by simp)
      | some s1 =>
        rw [hc] at h
        dsimp only at h
        rw [V m env c seen s1 hm hc]
        dsimp only
        exact ihl s1 h

/-- The traversal only grows the seen set. -/
theorem traverse_subset : ∀ n : Nat,
    (∀ env v seen r, traverseF n env v seen = some r → seen ⊆ r) ∧
    (∀ env l seen r, traverseListF n env l seen = some r → seen ⊆ r) := by
  intro n
  induction n with
  | zero =>
    constructor
    · intro env v seen r h
      exact absurd h (by simp [traverseF])
    · intro env l seen r h
      cases l with
      | nil =>
        cases h
        exact fun x hx => hx
      | cons c cs =>
        rw [traverseListF_cons] at h
        rw [show traverseF 0 env c seen = none from rfl] at h
        exact absurd h (by simp)
  | succ n ih =>
    have V : ∀ env v seen r, traverseF (n + 1) env v seen = some r → seen ⊆ r := by
      intro env v seen r h
      cases hv : addrOfV v with
      | none =>
        rw [traverseF_prim n env v seen hv] at h
        cases h
        exact fun x hx => hx
      | some a =>
        cases hl : lookupH env.heap a with
        | none =>
          rw [traverseF_noheap n env v a seen hv hl] at h
          cases h
          exact fun x hx => hx
        | some o =>
          by_cases hf : (o.frozen || o.isVNode) = true
          · rw [traverseF_guard n env v a o seen hv hl hf] at h
            cases h
            exact fun x hx => hx
          · have hf2 : (o.frozen || o.isVNode) = false := by
              cases hx : (o.frozen || o.isVNode)
              · rfl
              · exact absurd hx hf
            cases hob : obLookup env.depIdOf a with
            | some d =>
              by_cases hmem : d ∈ seen
              · rw [traverseF_seen n env v a d o seen hv hl hf2 hob hmem] at h
                cases h
                exact fun x hx => hx
              · rw [traverseF_dep n env v a d o seen hv hl hf2 hob hmem] at h
                have := ih.2 env _ _ r h
                exact fun x hx => this (List.mem_cons_of_mem _ hx)
            | none =>
              rw [traverseF_nob n env v a o seen hv hl hf2 hob] at h
              exact ih.2 env _ _ r h
    refine ⟨V, ?_⟩
    intro env l seen r h
    induction l generalizing seen with
    | nil =>
      cases h
      exact fun x hx => hx
    | cons c cs ihl =>
      rw [traverseListF_cons] at h
      cases hc : traverseF (n + 1) env c seen with
      | none =>
        rw [hc] at h
        exact absurd h (by simp)
      | some s1 =>
        rw [hc] at h
        dsimp only at h
        exact fun x hx => ihl s1 h (V env c seen s1 hc hx)

/-! ### Termination of the traversal -/

theorem obLookup_mem : ∀ (l : List (Nat × Nat)) (a d : Nat),
    obLookup l a = some d → d ∈ l.map Prod.snd := by
  intro l
  induction l with
  | nil => intro a d h; exact absurd h (by simp [obLookup])
  | cons p rest ih =>
    intro a d h
    by_cases hp : p.1 = a
    · rw [show obLookup (p :: rest) a = if p.1 = a then some p.2 else obLookup rest a from rfl,
        if_pos hp] at h
      injection h with h
      rw [← h]
      exact List.mem_cons_self _ _
    · rw [show obLookup (p :: rest) a = if p.1 = a then some p.2 else obLookup rest a from rfl,
        if_neg hp] at h
      exact List.mem_cons_of_mem _ (ih a d h)

theorem length_filter_mono (l : List Nat) (p q : Nat → Bool)
    (h : ∀ x, p x = true → q x = true) :
    (l.filter p).length ≤ (l.filter q).length := by
  induction l with
  | nil => exact le_rfl
  | cons x xs ih =>
    rw [List.filter_cons, List.filter_cons]
    by_cases hp : p x = true
    · rw [if_pos hp, if_pos (h x hp)]
      simpa using ih
    · rw [if_neg hp]
      by_cases hq : q x = true
      · rw [if_pos hq]
        exact le_trans ih (Nat.le_succ _)
      · rw [if_neg hq]
        exact ih

theorem length_filter_lt (l : List Nat) (d : Nat) (seen : List Nat)
    (hd : d ∈ l) (hs : d ∉ seen) :
    (l.filter (fun x => decide (x ∉ d :: seen))).length <
      (l.filter (fun x => decide (x ∉ seen))).length := by
  induction l with
  | nil => exact absurd hd (by simp)
  | cons x xs ih =>
    rw [List.filter_cons, List.filter_cons]
    by_cases hx : x = d
    · subst hx
      rw [if_neg (by simp), if_pos (by simpa using hs)]
      refine Nat.lt_succ_of_le (length_filter_mono xs _ _ ?_)
      intro y hy
      simp only [decide_eq_true_eq] at hy ⊢
      intro hmem
      exact hy (List.mem_cons_of_mem _ hmem)
    · have hd2 : d ∈ xs := by
        rcases List.mem_cons.mp hd with h | h
        · exact absurd h.symm hx
        · exact h
      by_cases hmem : x ∈ seen
      · rw [if_neg (by simp [hmem]), if_neg (by simp [hmem])]
        exact ih hd2
      · have hx2 : x ∉ d :: seen := by
          intro hc
          rcases List.mem_cons.mp hc with h | h
          · exact hx h
          · exact hmem h
        rw [if_pos (by simpa using hx2), if_pos (by simpa using hmem)]
        exact Nat.succ_lt_succ (ih hd2)

/-- Number of dep ids carried by the environment's observers that are not yet
in the seen set. -/
def unseenCount (env : TEnv) (seen : List Nat) : Nat :=
  ((env.depIdOf.map Prod.snd).filter (fun d => decide (d ∉ seen))).length

theorem unseenCount_mono (env : TEnv) (s1 s2 : List Nat) (h : s1 ⊆ s2) :
    unseenCount env s2 ≤ unseenCount env s1 :=
  length_filter_mono _ _ _ (fun x hx => by
    simp only [decide_eq_true_eq] at hx ⊢
    exact fun hmem => hx (h hmem))

theorem unseenCount_lt (env : TEnv) (a d : Nat) (seen : List Nat)
    (hob : obLookup env.depIdOf a = some d) (hs : d ∉ seen) :
    unseenCount env (d :: seen) < unseenCount env seen :=
  length_filter_lt _ d seen (obLookup_mem _ a d hob) hs

/-- Rank of a value: one more than the rank of the address it references,
zero for primitives. -/
def rankV (rank : Nat → Nat) : Value → Nat
  | .obj a => rank a + 1
  | .arr a => rank a + 1
  | _ => 0

/-- The heap addresses referenced by an object's own contents. -/
def refsOf (o : HObj) : List Nat :=
  (o.elems ++ o.fields.map Prod.snd).filterMap addrOfV

theorem rankV_of_addr (rank : Nat → Nat) (v : Value) (a : Nat)
    (h : addrOfV v = some a) : rankV rank v = rank a + 1 := by
  cases v with
  | obj b =>
    have hb : b = a := by simpa [addrOfV] using h
    rw [hb]; rfl
  | arr b =>
    have hb : b = a := by simpa [addrOfV] using h
    rw [hb]; rfl
  | undef => exact absurd h (by simp [addrOfV])
  | null => exact absurd h (by simp [addrOfV])
  | boolV b => exact absurd h (by simp [addrOfV])
  | num n => exact absurd h (by simp [addrOfV])
  | str s => exact absurd h (by simp [addrOfV])

theorem rankV_of_none (rank : Nat → Nat) (v : Value) (h : addrOfV v = none) :
    rankV rank v = 0 := by
  cases v <;> first | rfl | exact absurd h (by simp [addrOfV])

theorem mem_refsOf (v : Value) (o : HObj) (c : Value) (b : Nat)
    (hc : c ∈ childVals v o) (hb : addrOfV c = some b) : b ∈ refsOf o := by
  have hc2 : c ∈ o.elems ++ o.fields.map Prod.snd := by
    rw [List.mem_append]
    cases v with
    | arr a => exact Or.inl (by simpa [childVals] using hc)
    | obj a => exact Or.inr (by simpa [childVals] using hc)
    | undef => exact Or.inr (by simpa [childVals] using hc)
    | null => exact Or.inr (by simpa [childVals] using hc)
    | boolV x => exact Or.inr (by simpa [childVals] using hc)
    | num x => exact Or.inr (by simpa [childVals] using hc)
    | str x => exact Or.inr (by simpa [childVals] using hc)
  exact List.mem_filterMap.mpr ⟨c, hc2, hb⟩

/-- Solving a list of children sequentially, given a solver for each child
below a fixed unseen-count budget. -/
theorem traverseList_exists (env : TEnv) (P : Nat) :
    ∀ l : List Value,
    (∀ c, c ∈ l → ∀ seen, unseenCount env seen ≤ P →
      ∃ n r, traverseF n env c seen = some r ∧ seen ⊆ r) →
    ∀ seen, unseenCount env seen ≤ P →
      ∃ n r, traverseListF n env l seen = some r ∧ seen ⊆ r := by
  intro l
  induction l with
  | nil =>
    intro _ seen _
    exact ⟨0, seen, rfl, fun x hx => hx⟩
  | cons c cs ih =>
    intro hsolve seen hP
    obtain ⟨n1, r1, h1, hs1⟩ := hsolve c (List.mem_cons_self _ _) seen hP
    have hP1 : unseenCount env r1 ≤ P := le_trans (unseenCount_mono env seen r1 hs1) hP
    obtain ⟨n2, r2, h2, hs2⟩ :=
      ih (fun c2 hc2 => hsolve c2 (List.mem_cons_of_mem _ hc2)) r1 hP1
    refine ⟨max n1 n2, r2, ?_, fun x hx => hs2 (hs1 hx)⟩
    rw [traverseListF_cons]
    rw [(traverse_mono n1).1 (max n1 n2) env c seen r1 (le_max_left _ _) h1]
    dsimp only
    exact (traverse_mono n2).2 (max n1 n2) env cs r1 r2 (le_max_right _ _) h2

/-- Existence of sufficient fuel, by double induction on the number of unseen
dep ids and the rank of the value. -/
theorem traverse_exists_aux (env : TEnv) (rank : Nat → Nat)
    (hrank : ∀ a o, lookupH env.heap a = some o → obLookup env.depIdOf a = none →
      ∀ b, b ∈ refsOf o → rank b < rank a) :
    ∀ p q seen v, unseenCount env seen ≤ p → rankV rank v ≤ q →
      ∃ n r, traverseF n env v seen = some r ∧ seen ⊆ r := by
  have hbase : ∀ seen v, rankV rank v ≤ 0 →
      ∃ n r, traverseF n env v seen = some r ∧ seen ⊆ r := by
    intro seen v hq
    cases hv : addrOfV v with
    | none => exact ⟨1, seen, traverseF_prim 0 env v seen hv, fun x hx => hx⟩
    | some a =>
      rw [rankV_of_addr rank v a hv] at hq
      omega
  intro p
  induction p with
  | zero =>
    intro q
    induction q with
    | zero =>
      intro seen v hP hq
      exact hbase seen v hq
    | succ q ihq =>
      intro seen v hP hq
      cases hv : addrOfV v with
      | none => exact ⟨1, seen, traverseF_prim 0 env v seen hv, fun x hx => hx⟩
      | some a =>
        cases hl : lookupH env.heap a with
        | none => exact ⟨1, seen, traverseF_noheap 0 env v a seen hv hl, fun x hx => hx⟩
        | some o =>
          by_cases hf : (o.frozen || o.isVNode) = true
          · exact ⟨1, seen, traverseF_guard 0 env v a o seen hv hl hf, fun x hx => hx⟩
          · have hf2 : (o.frozen || o.isVNode) = false := by
              cases hb : (o.frozen || o.isVNode)
              · rfl
              · exact absurd hb hf
            cases hob : obLookup env.depIdOf a with
            | some d =>
              by_cases hmem : d ∈ seen
              · exact ⟨1, seen, traverseF_seen 0 env v a d o seen hv hl hf2 hob hmem,
                  fun x hx => hx⟩
              · have hlt := unseenCount_lt env a d seen hob hmem
                exact absurd (lt_of_lt_of_le hlt hP) (Nat.not_lt_zero _)
            | none =>
              have hra : rank a ≤ q := by
                rw [rankV_of_addr rank v a hv] at hq
                omega
              have hchild : ∀ c, c ∈ (childVals v o).reverse → rankV rank c ≤ q := by
                intro c hc
                rw [List.mem_reverse] at hc
                cases hcv : addrOfV c with
                | none => rw [rankV_of_none rank c hcv]; omega
                | some b =>
                  rw [rankV_of_addr rank c b hcv]
                  have := hrank a o hl hob b (mem_refsOf v o c b hc hcv)
                  omega
              obtain ⟨nl, r, hlist, hsub⟩ := traverseList_exists env 0
                (childVals v o).reverse
                (fun c hc seen2 h2 => ihq seen2 c h2 (hchild c hc)) seen hP
              exact ⟨nl + 1, r,
                by rw [traverseF_nob nl env v a o seen hv hl hf2 hob]; exact hlist, hsub⟩
  | succ p ihp =>
    intro q
    induction q with
    | zero =>
      intro seen v hP hq
      exact hbase seen v hq
    | succ q ihq =>
      intro seen v hP hq
      cases hv : addrOfV v with
      | none => exact ⟨1, seen, traverseF_prim 0 env v seen hv, fun x hx => hx⟩
      | some a =>
        cases hl : lookupH env.heap a with
        | none => exact ⟨1, seen, traverseF_noheap 0 env v a seen hv hl, fun x hx => hx⟩
        | some o =>
          by_cases hf : (o.frozen || o.isVNode) = true
          · exact ⟨1, seen, traverseF_guard 0 env v a o seen hv hl hf, fun x hx => hx⟩
          · have hf2 : (o.frozen || o.isVNode) = false := by
              cases hb : (o.frozen || o.isVNode)
              · rfl
              · exact absurd hb hf
            cases hob : obLookup env.depIdOf a with
            | some d =>
              by_cases hmem : d ∈ seen
              · exact ⟨1, seen, traverseF_seen 0 env v a d o seen hv hl hf2 hob hmem,
                  fun x hx => hx⟩
              · have hlt := unseenCount_lt env a d seen hob hmem
                have hP2 : unseenCount env (d :: seen) ≤ p := by omega
                obtain ⟨nl, r, hlist, hsub⟩ := traverseList_exists env p
                  (childVals v o).reverse
                  (fun c _ seen2 h2 => ihp (rankV rank c) seen2 c h2 le_rfl)
                  (d :: seen) hP2
                refine ⟨nl + 1, r, ?_, fun x hx => hsub (List.mem_cons_of_mem _ hx)⟩
                rw [traverseF_dep nl env v a d o seen hv hl hf2 hob hmem]
                exact hlist
            | none =>
              have hra : rank a ≤ q := by
                rw [rankV_of_addr rank v a hv] at hq
                omega
              have hchild : ∀ c, c ∈ (childVals v o).reverse → rankV rank c ≤ q := by
                intro c hc
                rw [List.mem_reverse] at hc
                cases hcv : addrOfV c with
                | none => rw [rankV_of_none rank c hcv]; omega
                | some b =>
                  rw [rankV_of_addr rank c b hcv]
                  have := hrank a o hl hob b (mem_refsOf v o c b hc hcv)
                  omega
              obtain ⟨nl, r, hlist, hsub⟩ := traverseList_exists env (p + 1)
                (childVals v o).reverse
                (fun c hc seen2 h2 => ihq seen2 c h2 (hchild c hc)) seen hP
              exact ⟨nl + 1, r,
                by rw [traverseF_nob nl env v a o seen hv hl hf2 hob]; exact hlist, hsub⟩

/-- Claim C9: traverse terminates on every input, including object graphs
with reference cycles, provided every object on a cycle carries an __ob__
with a unique dep id (formalised: dep ids identify their objects, and the
objects without an __ob__ admit a strictly decreasing rank along their
references, which is exactly the absence of __ob__-free cycles in a finite
heap); moreover the module-level seen set is cleared at the end of the
top-level call, so a consecutive traversal starts from an empty visited
set. -/
theorem claim_C9_traverse_terminates (env : TEnv) (val : Value) (rank : Nat → Nat)
    (hrank : ∀ a o, lookupH env.heap a = some o → obLookup env.depIdOf a = none →
      ∀ b, b ∈ refsOf o → rank b < rank a)
    (huniq : ∀ a a2 d, obLookup env.depIdOf a = some d →
      obLookup env.depIdOf a2 = some d → a = a2) :
    ∃ n r, traverseF n env val [] = some r ∧ traverse n env val [] = some [] := by
  obtain ⟨n, r, h, -⟩ := traverse_exists_aux env rank hrank
    (unseenCount env []) (rankV rank val) [] val le_rfl le_rfl
  refine ⟨n, r, h, ?_⟩
  unfold traverse
  rw [h]

/-- A self-referencing observed object: a one-object heap whose only field
points back to itself, carrying dep id 42. -/
def envW : TEnv :=
  ⟨[(0, ⟨true, true, false, false, false, [("self", Value.obj 0)], []⟩)], [(0, 42)]⟩

theorem claim_C9_witness :
    ∃ n r, traverseF n envW (Value.obj 0) [] = some r ∧
      traverse n envW (Value.obj 0) [] = some [] := by
  apply claim_C9_traverse_terminates envW (Value.obj 0) (fun _ => 0)
  · intro a o h1 h2 b hb
    by_cases h : (0 : Nat) = a
    · rw [← h] at h2
      exact absurd h2 (by simp [envW, obLookup])
    · rw [show lookupH envW.heap a = none from by simp [envW, lookupH, h]] at h1
      exact Option.noConfusion h1
  · intro a a2 d h1 h2
    by_cases ha : (0 : Nat) = a
    · by_cases ha2 : (0 : Nat) = a2
      · rw [← ha, ← ha2]
      · rw [show obLookup envW.depIdOf a2 = none from by simp [envW, obLookup, ha2]] at h2
        exact Option.noConfusion h2
    · rw [show obLookup envW.depIdOf a = none from by simp [envW, obLookup, ha]] at h1
      exact Option.noConfusion h1

end VueSpec
